import Mathlib

/-!
Shallow embedding of the `numtoa` crate (src/lib.rs): integer-to-string
conversion into a caller-supplied byte buffer, for bases 2..36.

Modelling conventions:
* A byte buffer `string : &mut [u8]` is a `List Nat`; a bounds-checked
  write `string[i] = c` is `setAt`, returning `none` exactly when the
  Rust indexing would panic.
* A function that can panic returns `Option`; `none` means the call
  panics (buffer overrun, arithmetic overflow, out-of-range `LOOKUP`
  index, division by zero).
* Unsigned machine integers are `Nat` (the loops only divide and take
  remainders, so no unsigned operation in the source can overflow and
  the model is width-independent).  Signed machine integers are `Int`
  with the width appearing only where the source behaviour depends on
  it: `self.abs()` overflows exactly at the minimum value `-2^(w-1)`.
* Rust's `/` and `%` on signed integers truncate toward zero; they are
  modelled by `rustTDiv` / `rustTMod` below (Lean's `Int` `/` rounds
  differently, so it is not used).
* Loops are written with an explicit fuel argument so that every
  definition computes by kernel reduction; `digitsLSBF_congr` etc. show
  the chosen fuel is irrelevant, and all reasoning goes through derived
  unfolding equations that mirror the source loops exactly.
-/

/-- `const LOOKUP: &'static [u8] = b"0123456789ABCDEFGHIJKLMNOPQRSTUVWXYZ";`
as the list of its 36 byte values. -/
def LOOKUP : List Nat :=
  [48, 49, 50, 51, 52, 53, 54, 55, 56, 57,
   65, 66, 67, 68, 69, 70, 71, 72, 73, 74, 75, 76, 77, 78, 79, 80,
   81, 82, 83, 84, 85, 86, 87, 88, 89, 90]

/-- Total lookup used where the index is provably below 36 (the batched
decimal path only ever indexes with a value 0..9). -/
def lkChar (d : Nat) : Nat := LOOKUP.getD d 0

/-- Bounds-checked write `string[i] = c`: `none` iff the Rust slice
indexing would panic. -/
def setAt (s : List Nat) (i : Nat) (c : Nat) : Option (List Nat) :=
  if i < s.length then some (s.set i c) else none

/-- The effect of writing the block `xs` at offset `i` of `s`. -/
def splice (s : List Nat) (i : Nat) (xs : List Nat) : List Nat :=
  s.take i ++ xs ++ s.drop (i + xs.length)

/-- `core::ptr::swap` of positions `i` and `j` (the source only calls it
with both in bounds; out of bounds is left as the identity). -/
def swapAt (s : List Nat) (i j : Nat) : List Nat :=
  match s[i]?, s[j]? with
  | some a, some b => (s.set i b).set j a
  | _, _ => s

/-- The two-pointer swap loop of `reverse`, with fuel (each iteration
moves `start` up and `e` down, so `e` bounds the iteration count). -/
def revLoopF : Nat → List Nat → Nat → Nat → List Nat
  | 0, s, _, _ => s
  | f + 1, s, start, e => if start < e then revLoopF f (swapAt s start e) (start + 1) (e - 1) else s

/-- `fn reverse(string: &mut [u8], length: usize)`: reverse the first
`length` bytes in place (two-pointer swap from both ends). -/
def reverse (s : List Nat) (length : Nat) : List Nat :=
  if length = 0 then s else revLoopF length s 0 (length - 1)

/-- Rust's `/` on signed integers: truncation toward zero. -/
def rustTDiv (a b : Int) : Int := a.sign * b.sign * (a.natAbs / b.natAbs : Nat)

/-- Rust's `%` on signed integers: remainder with the sign of the dividend. -/
def rustTMod (a b : Int) : Int := a.sign * (a.natAbs % b.natAbs : Nat)

/-- Little-endian digit list of `v` in base `base` (the sequence of
remainders produced by the source's division loop), with fuel. -/
def digitsLSBF : Nat → Nat → Nat → List Nat
  | 0, _, _ => []
  | f + 1, base, v =>
    if v = 0 ∨ base ≤ 1 then [] else v % base :: digitsLSBF f base (v / base)

/-- Little-endian digit list of `v` in base `base`; fuel `v + 1` always
suffices (`digitsLSBF_congr`). -/
def digitsLSB (base v : Nat) : List Nat := digitsLSBF (v + 1) base v

/-- The generic-base digit loop of `impl_unsized_numtoa_for!`
(`while self != 0 { rem = self % base; string[index] = LOOKUP[rem]; index += 1; self /= base }`),
with fuel.  With `base ≤ 1` the source loop can never exit normally
(base 0 divides by zero and panics; base 1 never decreases `self`, so
the writes overrun any finite buffer and panic), hence `none`. -/
def digitLoopF : Nat → Nat → Nat → Nat → List Nat → Option (Nat × List Nat)
  | 0, _, _, _, _ => none
  | f + 1, base, v, index, s =>
    if v = 0 then some (index, s)
    else if base ≤ 1 then none
    else
      (LOOKUP.get? (v % base)).bind fun c =>
        (setAt s index c).bind fun s1 =>
          digitLoopF f base (v / base) (index + 1) s1

/-- Generic-base digit loop; fuel `v + 1` always suffices (`digitLoopF_congr`). -/
def digitLoop (base v index : Nat) (s : List Nat) : Option (Nat × List Nat) :=
  digitLoopF (v + 1) base v index s

/-- The `base_10!` macro: batched base-10 digit extraction, four digits
per iteration while `v > 9999`, then a cascade writing the final one to
four digits, with fuel. -/
def base10LoopF : Nat → Nat → Nat → List Nat → Option (Nat × List Nat)
  | 0, _, _, _ => none
  | f + 1, v, index, s =>
    if 9999 < v then
      (setAt s (index + 3) (lkChar (v % 10000 / 1000))).bind fun s1 =>
        (setAt s1 (index + 2) (lkChar (v % 10000 % 1000 / 100))).bind fun s2 =>
          (setAt s2 (index + 1) (lkChar (v % 10000 % 100 / 10))).bind fun s3 =>
            (setAt s3 index (lkChar (v % 10000 % 10))).bind fun s4 =>
              base10LoopF f (v / 10000) (index + 4) s4
    else if 999 < v then
      (setAt s (index + 3) (lkChar (v / 1000))).bind fun s1 =>
        (setAt s1 (index + 2) (lkChar (v % 1000 / 100))).bind fun s2 =>
          (setAt s2 (index + 1) (lkChar (v % 1000 % 100 / 10))).bind fun s3 =>
            (setAt s3 index (lkChar (v % 1000 % 10))).bind fun s4 =>
              some (index + 4, s4)
    else if 99 < v then
      (setAt s (index + 2) (lkChar (v / 100))).bind fun s1 =>
        (setAt s1 (index + 1) (lkChar (v % 100 / 10))).bind fun s2 =>
          (setAt s2 index (lkChar (v % 100 % 10))).bind fun s3 =>
            some (index + 3, s3)
    else if 9 < v then
      (setAt s (index + 1) (lkChar (v / 10))).bind fun s1 =>
        (setAt s1 index (lkChar (v % 10))).bind fun s2 =>
          some (index + 2, s2)
    else
      (setAt s index (lkChar v)).bind fun s1 => some (index + 1, s1)

/-- The `base_10!` macro; fuel `v + 1` always suffices (`base10LoopF_congr`). -/
def base10Loop (v index : Nat) (s : List Nat) : Option (Nat × List Nat) :=
  base10LoopF (v + 1) v index s

/-- The generic-base digit loop of `impl_sized_numtoa_for!`, operating on
the signed type, with fuel.  `rem as usize` on a negative remainder wraps
to a huge index, so `LOOKUP[rem as usize]` panics: modelled by the
`rem < 0` check.  With `|base| ≤ 1` the source loop can never exit
normally (base 0 panics dividing by zero; base ±1 never shrinks `self`,
overrunning any finite buffer), hence `none`. -/
def digitLoopIF : Nat → Int → Int → Nat → List Nat → Option (Nat × List Nat)
  | 0, _, _, _, _ => none
  | f + 1, base, v, index, s =>
    if v = 0 then some (index, s)
    else if base.natAbs ≤ 1 then none
    else
      let rem := rustTMod v base
      if rem < 0 then none
      else
        (LOOKUP.get? rem.toNat).bind fun c =>
          (setAt s index c).bind fun s1 =>
            digitLoopIF f base (rustTDiv v base) (index + 1) s1

/-- Signed generic-base digit loop; fuel `v.natAbs + 1` always suffices
(`digitLoopIF_congr`). -/
def digitLoopI (base v : Int) (index : Nat) (s : List Nat) : Option (Nat × List Nat) :=
  digitLoopIF (v.natAbs + 1) base v index s

/-- `fn numtoa` of `impl_unsized_numtoa_for!` (u16, u32, u64, usize):
zero short-circuit, base-10 fast path or generic loop, then reversal.
Width-independent because the unsigned operations cannot overflow. -/
def numtoa_u (v base : Nat) (s : List Nat) : Option (Nat × List Nat) :=
  if v = 0 then
    (setAt s 0 48).bind fun s1 => some (1, s1)
  else
    (if base = 10 then base10Loop v 0 s else digitLoop base v 0 s).bind fun p =>
      some (p.1, reverse p.2 p.1)

/-- `impl NumToA<u8> for u8`: like `numtoa_u` but with no base-10 fast
path (the generic loop is used for every base). -/
def numtoa_u8 (v base : Nat) (s : List Nat) : Option (Nat × List Nat) :=
  if v = 0 then
    (setAt s 0 48).bind fun s1 => some (1, s1)
  else
    (digitLoop base v 0 s).bind fun p => some (p.1, reverse p.2 p.1)

/-- Common tail of the signed conversions after sign stripping: digit
loop (fast path iff `base = 10`), `'-'` append when negative, reversal. -/
def numtoaSignedCore (neg : Bool) (n : Nat) (base : Int) (s : List Nat) :
    Option (Nat × List Nat) :=
  (if base = 10 then base10Loop n 0 s else digitLoopI base (n : Int) 0 s).bind fun p =>
    if neg then
      (setAt p.2 p.1 45).bind fun s2 => some (p.1 + 1, reverse s2 (p.1 + 1))
    else some (p.1, reverse p.2 p.1)

/-- Like `numtoaSignedCore` but with no base-10 fast path (the `i8` impl). -/
def numtoaSignedCore8 (neg : Bool) (n : Nat) (base : Int) (s : List Nat) :
    Option (Nat × List Nat) :=
  (digitLoopI base (n : Int) 0 s).bind fun p =>
    if neg then
      (setAt p.2 p.1 45).bind fun s2 => some (p.1 + 1, reverse s2 (p.1 + 1))
    else some (p.1, reverse p.2 p.1)

/-- `fn numtoa` of `impl_sized_numtoa_for!` (i16, i32, i64, isize), with
`w` the bit width of the type.  `self = self.abs()` on the minimum value
`-2^(w-1)` overflows: a debug build panics right there, and a release
build wraps to the minimum value itself, whose negative remainders then
drive `rem as usize` (or the `base_10!` table index) out of bounds and
panic.  Both semantics abort the call, modelled as `none`. -/
def numtoa_i (w : Nat) (v base : Int) (s : List Nat) : Option (Nat × List Nat) :=
  if v < 0 then
    if v = -(2 ^ (w - 1) : Int) then none
    else numtoaSignedCore true v.natAbs base s
  else if v = 0 then
    (setAt s 0 48).bind fun s1 => some (1, s1)
  else numtoaSignedCore false v.natAbs base s

/-- `impl NumToA<i8> for i8`: like `numtoa_i 8` but the generic loop is
used for every base (no `base_10!` fast path).  `(-128 : i8).abs()`
overflows, aborting the call as in `numtoa_i`. -/
def numtoa_i8 (v base : Int) (s : List Nat) : Option (Nat × List Nat) :=
  if v < 0 then
    if v = -128 then none
    else numtoaSignedCore8 true v.natAbs base s
  else if v = 0 then
    (setAt s 0 48).bind fun s1 => some (1, s1)
  else numtoaSignedCore8 false v.natAbs base s

/-- Byte count written by the unsigned conversions (digits only). -/
def uCount (base v : Nat) : Nat :=
  if v = 0 then 1 else (digitsLSB base v).length

/-- Byte count written by the signed conversions (digits plus sign). -/
def iCount (base : Nat) (v : Int) : Nat :=
  (if v < 0 then 1 else 0) + (if v = 0 then 1 else (digitsLSB base v.natAbs).length)

/-- Spec-side digit-symbol reader: ASCII `'0'`..`'9'` map to 0..9 and
`'A'`..`'Z'` to 10..35. -/
def charVal (c : Nat) : Nat :=
  if 48 ≤ c ∧ c ≤ 57 then c - 48
  else if 65 ≤ c ∧ c ≤ 90 then c - 55 else 0

/-- Spec-side numeral reader: interpret a byte string as an unsigned
base-`base` numeral, most significant digit first. -/
def parseNat (base : Nat) (l : List Nat) : Nat :=
  l.foldl (fun acc c => acc * base + charVal c) 0

/-- Spec-side numeral reader with an optional leading `'-'`. -/
def parseBytes (base : Nat) (l : List Nat) : Int :=
  if l.head? = some 45 then -(parseNat base l.tail : Int) else (parseNat base l : Int)

/-- Spec-side canonical length: the character count of the canonical
representation (`Nat.digits` has no leading zeros), plus one for the
sign when negative.  Stated from the spec's words, independently of the
source loops. -/
def canonLen (base : Nat) (v : Int) : Nat :=
  (if v < 0 then 1 else 0) + (if v = 0 then 1 else (Nat.digits base v.natAbs).length)


/-! ### Fuel congruence: the fuel arguments are irrelevant once large enough -/

theorem digitsLSBF_congr : ∀ (f1 f2 base v : Nat), v < f1 → v < f2 →
    digitsLSBF f1 base v = digitsLSBF f2 base v := by
  intro f1
  induction f1 with
  | zero => intro f2 base v h1 _; exact absurd h1 (Nat.not_lt_zero v)
  | succ f ih =>
    intro f2 base v h1 h2
    cases f2 with
    | zero => exact absurd h2 (Nat.not_lt_zero v)
    | succ g =>
      simp only [digitsLSBF]
      by_cases hc : v = 0 ∨ base ≤ 1
      · simp [hc]
      · push_neg at hc
        rw [if_neg, if_neg]
        · have hlt : v / base < v := Nat.div_lt_self (Nat.pos_of_ne_zero hc.1) (by omega)
          rw [ih g base (v / base) (by omega) (by omega)]
        · omega
        · omega

theorem digitsLSB_zero (base : Nat) : digitsLSB base 0 = [] := rfl

theorem digitsLSB_cons (base v : Nat) (hb : 2 ≤ base) (hv : v ≠ 0) :
    digitsLSB base v = v % base :: digitsLSB base (v / base) := by
  have hlt : v / base < v := Nat.div_lt_self (Nat.pos_of_ne_zero hv) (by omega)
  show digitsLSBF (v + 1) base v = _
  simp only [digitsLSBF]
  rw [if_neg (by omega)]
  rw [digitsLSBF_congr v (v / base + 1) base (v / base) (by omega) (by omega)]
  rfl

theorem digitLoopF_congr : ∀ (f1 f2 base v index : Nat) (s : List Nat), v < f1 → v < f2 →
    digitLoopF f1 base v index s = digitLoopF f2 base v index s := by
  intro f1
  induction f1 with
  | zero => intro f2 base v index s h1 _; exact absurd h1 (Nat.not_lt_zero v)
  | succ f ih =>
    intro f2 base v index s h1 h2
    cases f2 with
    | zero => exact absurd h2 (Nat.not_lt_zero v)
    | succ g =>
      simp only [digitLoopF]
      by_cases hv : v = 0
      · simp [hv]
      · rw [if_neg hv, if_neg hv]
        by_cases hb : base ≤ 1
        · simp [hb]
        · rw [if_neg hb, if_neg hb]
          have hlt : v / base < v := Nat.div_lt_self (Nat.pos_of_ne_zero hv) (by omega)
          cases LOOKUP.get? (v % base) with
          | none => rfl
          | some c =>
            simp only [Option.some_bind]
            cases setAt s index c with
            | none => rfl
            | some s1 =>
              simp only [Option.some_bind]
              exact ih g base (v / base) (index + 1) s1 (by omega) (by omega)

theorem digitLoop_zero (base index : Nat) (s : List Nat) :
    digitLoop base 0 index s = some (index, s) := rfl

theorem digitLoop_step (base v index : Nat) (s : List Nat) (hb : 2 ≤ base) (hv : v ≠ 0) :
    digitLoop base v index s =
      (LOOKUP.get? (v % base)).bind fun c =>
        (setAt s index c).bind fun s1 =>
          digitLoop base (v / base) (index + 1) s1 := by
  have hlt : v / base < v := Nat.div_lt_self (Nat.pos_of_ne_zero hv) (by omega)
  show digitLoopF (v + 1) base v index s = _
  simp only [digitLoopF]
  rw [if_neg hv, if_neg (by omega : ¬ base ≤ 1)]
  cases LOOKUP.get? (v % base) with
  | none => rfl
  | some c =>
    simp only [Option.some_bind]
    cases setAt s index c with
    | none => rfl
    | some s1 =>
      simp only [Option.some_bind]
      exact digitLoopF_congr v (v / base + 1) base (v / base) (index + 1) s1
        (by omega) (by omega)

theorem base10LoopF_congr : ∀ (f1 f2 v index : Nat) (s : List Nat), v < f1 → v < f2 →
    base10LoopF f1 v index s = base10LoopF f2 v index s := by
  intro f1
  induction f1 with
  | zero => intro f2 v index s h1 _; exact absurd h1 (Nat.not_lt_zero v)
  | succ f ih =>
    intro f2 v index s h1 h2
    cases f2 with
    | zero => exact absurd h2 (Nat.not_lt_zero v)
    | succ g =>
      simp only [base10LoopF]
      by_cases hv : 9999 < v
      · rw [if_pos hv, if_pos hv]
        have hlt : v / 10000 < v := Nat.div_lt_self (by omega) (by omega)
        cases setAt s (index + 3) (lkChar (v % 10000 / 1000)) with
        | none => rfl
        | some s1 =>
          simp only [Option.some_bind]
          cases setAt s1 (index + 2) (lkChar (v % 10000 % 1000 / 100)) with
          | none => rfl
          | some s2 =>
            simp only [Option.some_bind]
            cases setAt s2 (index + 1) (lkChar (v % 10000 % 100 / 10)) with
            | none => rfl
            | some s3 =>
              simp only [Option.some_bind]
              cases setAt s3 index (lkChar (v % 10000 % 10)) with
              | none => rfl
              | some s4 =>
                simp only [Option.some_bind]
                exact ih g (v / 10000) (index + 4) s4 (by omega) (by omega)
      · rw [if_neg hv, if_neg hv]

theorem base10Loop_step (v index : Nat) (s : List Nat) (hv : 9999 < v) :
    base10Loop v index s =
      (setAt s (index + 3) (lkChar (v % 10000 / 1000))).bind fun s1 =>
        (setAt s1 (index + 2) (lkChar (v % 10000 % 1000 / 100))).bind fun s2 =>
          (setAt s2 (index + 1) (lkChar (v % 10000 % 100 / 10))).bind fun s3 =>
            (setAt s3 index (lkChar (v % 10000 % 10))).bind fun s4 =>
              base10Loop (v / 10000) (index + 4) s4 := by
  have hlt : v / 10000 < v := Nat.div_lt_self (by omega) (by omega)
  show base10LoopF (v + 1) v index s = _
  simp only [base10LoopF]
  rw [if_pos hv]
  cases setAt s (index + 3) (lkChar (v % 10000 / 1000)) with
  | none => rfl
  | some s1 =>
    simp only [Option.some_bind]
    cases setAt s1 (index + 2) (lkChar (v % 10000 % 1000 / 100)) with
    | none => rfl
    | some s2 =>
      simp only [Option.some_bind]
      cases setAt s2 (index + 1) (lkChar (v % 10000 % 100 / 10)) with
      | none => rfl
      | some s3 =>
        simp only [Option.some_bind]
        cases setAt s3 index (lkChar (v % 10000 % 10)) with
        | none => rfl
        | some s4 =>
          simp only [Option.some_bind]
          exact base10LoopF_congr v (v / 10000 + 1) (v / 10000) (index + 4) s4
            (by omega) (by omega)

theorem base10Loop_last (v index : Nat) (s : List Nat) (hv : v ≤ 9999) :
    base10Loop v index s =
      if 999 < v then
        (setAt s (index + 3) (lkChar (v / 1000))).bind fun s1 =>
          (setAt s1 (index + 2) (lkChar (v % 1000 / 100))).bind fun s2 =>
            (setAt s2 (index + 1) (lkChar (v % 1000 % 100 / 10))).bind fun s3 =>
              (setAt s3 index (lkChar (v % 1000 % 10))).bind fun s4 =>
                some (index + 4, s4)
      else if 99 < v then
        (setAt s (index + 2) (lkChar (v / 100))).bind fun s1 =>
          (setAt s1 (index + 1) (lkChar (v % 100 / 10))).bind fun s2 =>
            (setAt s2 index (lkChar (v % 100 % 10))).bind fun s3 =>
              some (index + 3, s3)
      else if 9 < v then
        (setAt s (index + 1) (lkChar (v / 10))).bind fun s1 =>
          (setAt s1 index (lkChar (v % 10))).bind fun s2 =>
            some (index + 2, s2)
      else
        (setAt s index (lkChar v)).bind fun s1 => some (index + 1, s1) := by
  show base10LoopF (v + 1) v index s = _
  simp only [base10LoopF]
  rw [if_neg (by omega : ¬ 9999 < v)]

theorem sign_natAbs_le_one (x : Int) : x.sign.natAbs ≤ 1 := by
  rcases lt_trichotomy x 0 with h | h | h
  · rw [Int.sign_eq_neg_one_iff_neg.mpr h]; decide
  · rw [h]; decide
  · rw [Int.sign_eq_one_iff_pos.mpr h]; decide

theorem rustTDiv_natAbs_lt (v base : Int) (hv : v ≠ 0) (hb : 2 ≤ base.natAbs) :
    (rustTDiv v base).natAbs < v.natAbs := by
  have h1 : (rustTDiv v base).natAbs
      = v.sign.natAbs * base.sign.natAbs * (v.natAbs / base.natAbs) := by
    simp only [rustTDiv, Int.natAbs_mul, Int.natAbs_ofNat]
  have h2 := sign_natAbs_le_one v
  have h3 := sign_natAbs_le_one base
  have h4 : v.natAbs / base.natAbs < v.natAbs :=
    Nat.div_lt_self (Int.natAbs_pos.mpr hv) (by omega)
  have h5 : v.sign.natAbs * base.sign.natAbs ≤ 1 := by
    have := Nat.mul_le_mul h2 h3
    omega
  have h6 : v.sign.natAbs * base.sign.natAbs * (v.natAbs / base.natAbs)
      ≤ 1 * (v.natAbs / base.natAbs) := Nat.mul_le_mul_right _ h5
  omega

theorem digitLoopIF_congr : ∀ (f1 f2 : Nat) (base v : Int) (index : Nat) (s : List Nat),
    v.natAbs < f1 → v.natAbs < f2 →
    digitLoopIF f1 base v index s = digitLoopIF f2 base v index s := by
  intro f1
  induction f1 with
  | zero => intro f2 base v index s h1 _; exact absurd h1 (Nat.not_lt_zero _)
  | succ f ih =>
    intro f2 base v index s h1 h2
    cases f2 with
    | zero => exact absurd h2 (Nat.not_lt_zero _)
    | succ g =>
      simp only [digitLoopIF]
      by_cases hv : v = 0
      · simp [hv]
      · rw [if_neg hv, if_neg hv]
        by_cases hb : base.natAbs ≤ 1
        · simp [hb]
        · rw [if_neg hb, if_neg hb]
          by_cases hr : rustTMod v base < 0
          · simp only [if_pos hr]
          · simp only [if_neg hr]
            have hlt : (rustTDiv v base).natAbs < v.natAbs :=
              rustTDiv_natAbs_lt v base hv (by omega)
            cases LOOKUP.get? (rustTMod v base).toNat with
            | none => rfl
            | some c =>
              simp only [Option.some_bind]
              cases setAt s index c with
              | none => rfl
              | some s1 =>
                simp only [Option.some_bind]
                exact ih g base (rustTDiv v base) (index + 1) s1 (by omega) (by omega)

theorem digitLoopI_zero (base : Int) (index : Nat) (s : List Nat) :
    digitLoopI base 0 index s = some (index, s) := rfl

theorem rustTMod_coe (n m : Nat) : rustTMod (n : Int) (m : Int) = ((n % m : Nat) : Int) := by
  cases n with
  | zero => simp [rustTMod]
  | succ k =>
    simp only [rustTMod, Int.natAbs_ofNat]
    rw [Int.sign_eq_one_iff_pos.mpr (by positivity), one_mul]

theorem rustTDiv_coe (n m : Nat) : rustTDiv (n : Int) (m : Int) = ((n / m : Nat) : Int) := by
  cases n with
  | zero => simp [rustTDiv]
  | succ k =>
    cases m with
    | zero => simp [rustTDiv]
    | succ j =>
      simp only [rustTDiv, Int.natAbs_ofNat]
      rw [Int.sign_eq_one_iff_pos.mpr (by positivity),
        Int.sign_eq_one_iff_pos.mpr (by positivity), one_mul, one_mul]

theorem digitLoopI_step (base v : Int) (index : Nat) (s : List Nat)
    (hb : 2 ≤ base.natAbs) (hv : v ≠ 0) :
    digitLoopI base v index s =
      if rustTMod v base < 0 then none
      else
        (LOOKUP.get? (rustTMod v base).toNat).bind fun c =>
          (setAt s index c).bind fun s1 =>
            digitLoopI base (rustTDiv v base) (index + 1) s1 := by
  have hlt : (rustTDiv v base).natAbs < v.natAbs := rustTDiv_natAbs_lt v base hv (by omega)
  show digitLoopIF (v.natAbs + 1) base v index s = _
  simp only [digitLoopIF]
  rw [if_neg hv, if_neg (by omega : ¬ base.natAbs ≤ 1)]
  by_cases hr : rustTMod v base < 0
  · simp only [if_pos hr]
  · simp only [if_neg hr]
    cases LOOKUP.get? (rustTMod v base).toNat with
    | none => rfl
    | some c =>
      simp only [Option.some_bind]
      cases setAt s index c with
      | none => rfl
      | some s1 =>
        simp only [Option.some_bind]
        exact digitLoopIF_congr v.natAbs ((rustTDiv v base).natAbs + 1) base
          (rustTDiv v base) (index + 1) s1 (by omega) (by omega)

/-- On the nonnegative values and bases actually reached after sign
stripping, the signed generic loop coincides with the unsigned one. -/
theorem digitLoopI_coe (b : Nat) (hb : 2 ≤ b) : ∀ (n i : Nat) (s : List Nat),
    digitLoopI (b : Int) (n : Int) i s = digitLoop b n i s := by
  intro n
  induction n using Nat.strong_induction_on with
  | _ n ih =>
    intro i s
    by_cases hn : n = 0
    · subst hn
      rw [show ((0 : Nat) : Int) = 0 by rfl, digitLoopI_zero, digitLoop_zero]
    · have hbn : 2 ≤ ((b : Int)).natAbs := by rw [Int.natAbs_ofNat]; exact hb
      have hcast : ((n : Int)) ≠ 0 := by exact_mod_cast hn
      rw [digitLoopI_step (b : Int) (n : Int) i s hbn hcast,
        digitLoop_step b n i s hb hn, rustTMod_coe, rustTDiv_coe]
      rw [if_neg (by exact_mod_cast Int.not_lt.mpr (Int.ofNat_nonneg _) :
        ¬ ((n % b : Nat) : Int) < 0)]
      rw [show (((n % b : Nat) : Int)).toNat = n % b from Int.toNat_ofNat _]
      cases LOOKUP.get? (n % b) with
      | none => rfl
      | some c =>
        simp only [Option.some_bind]
        cases setAt s i c with
        | none => rfl
        | some s1 =>
          simp only [Option.some_bind]
          exact ih (n / b) (Nat.div_lt_self (Nat.pos_of_ne_zero hn) (by omega)) (i + 1) s1

/-! ### Buffer-write algebra -/

theorem lookup_get? : ∀ d : Nat, d < 36 → LOOKUP.get? d = some (lkChar d) := by decide

theorem charVal_lkChar : ∀ d : Nat, d < 36 → charVal (lkChar d) = d := by decide

theorem lkChar_ne_dash : ∀ d : Nat, d < 36 → lkChar d ≠ 45 := by decide

theorem splice_nil (s : List Nat) (i : Nat) : splice s i [] = s := by
  simp [splice]

theorem splice_getElem? (s : List Nat) (i : Nat) (xs : List Nat)
    (h : i + xs.length ≤ s.length) (k : Nat) :
    (splice s i xs)[k]? = if i ≤ k ∧ k < i + xs.length then xs[k - i]? else s[k]? := by
  have hti : (s.take i).length = i := by
    rw [List.length_take]; omega
  simp only [splice, List.append_assoc, List.getElem?_append, hti]
  by_cases h1 : k < i
  · rw [if_pos h1, List.getElem?_take, if_pos h1, if_neg (by omega)]
  · rw [if_neg h1]
    by_cases h2 : k - i < xs.length
    · rw [if_pos h2, if_pos (by omega)]
    · rw [if_neg h2, if_neg (by omega), List.getElem?_drop]
      congr 1
      omega

theorem splice_length (s : List Nat) (i : Nat) (xs : List Nat)
    (h : i + xs.length ≤ s.length) : (splice s i xs).length = s.length := by
  simp only [splice, List.length_append, List.length_take, List.length_drop]
  omega

theorem set_eq_splice (s : List Nat) (i x : Nat) (h : i < s.length) :
    s.set i x = splice s i [x] := by
  apply List.ext_getElem?
  intro k
  rw [splice_getElem? s i [x] (by simp; omega) k]
  rw [List.getElem?_set]
  by_cases hik : i = k
  · subst hik
    rw [if_pos rfl, if_pos h, if_pos ⟨le_refl i, by simp⟩]
    simp
  · rw [if_neg hik, if_neg (by simp; omega)]

theorem splice_cons (s : List Nat) (i x : Nat) (xs : List Nat)
    (h : i + (x :: xs).length ≤ s.length) :
    splice s i (x :: xs) = splice (s.set i x) (i + 1) xs := by
  have hxl : (x :: xs).length = xs.length + 1 := by simp
  have hlen : i < s.length := by omega
  apply List.ext_getElem?
  intro k
  rw [splice_getElem? s i (x :: xs) h k,
    splice_getElem? (s.set i x) (i + 1) xs (by rw [List.length_set]; omega) k]
  rw [List.getElem?_set]
  by_cases h1 : k < i
  · rw [if_neg (by omega), if_neg (by omega), if_neg (by omega)]
  · by_cases h2 : k = i
    · subst h2
      rw [if_pos ⟨le_refl k, by simp⟩, if_neg (by omega), if_pos rfl, if_pos hlen]
      simp
    · rw [if_neg (by omega : ¬ i = k)]
      by_cases h3 : k < i + (x :: xs).length
      · rw [if_pos ⟨by omega, h3⟩, if_pos ⟨by omega, by omega⟩]
        have hk : k - i = (k - (i + 1)) + 1 := by omega
        rw [hk]
        simp
      · rw [if_neg (by omega), if_neg (by omega)]

theorem splice_append (s : List Nat) (i : Nat) (xs ys : List Nat)
    (h : i + xs.length + ys.length ≤ s.length) :
    splice s i (xs ++ ys) = splice (splice s i xs) (i + xs.length) ys := by
  have hsl : (splice s i xs).length = s.length := splice_length s i xs (by omega)
  apply List.ext_getElem?
  intro k
  rw [splice_getElem? s i (xs ++ ys) (by rw [List.length_append]; omega) k,
    splice_getElem? (splice s i xs) (i + xs.length) ys (by omega) k,
    splice_getElem? s i xs (by omega) k]
  rw [List.length_append, List.getElem?_append]
  by_cases h1 : k < i
  · rw [if_neg (by omega), if_neg (by omega), if_neg (by omega)]
  · by_cases h2 : k < i + xs.length
    · rw [if_pos ⟨by omega, by omega⟩, if_pos (by omega), if_neg (by omega),
        if_pos ⟨by omega, by omega⟩]
    · by_cases h3 : k < i + xs.length + ys.length
      · rw [if_pos ⟨by omega, by omega⟩, if_neg (by omega), if_pos ⟨by omega, by omega⟩]
        congr 1
        omega
      · rw [if_neg (by omega), if_neg (by omega), if_neg (by omega)]

theorem set4_eq_splice (s : List Nat) (i c0 c1 c2 c3 : Nat) (h : i + 4 ≤ s.length) :
    (((s.set (i + 3) c3).set (i + 2) c2).set (i + 1) c1).set i c0
      = splice s i [c0, c1, c2, c3] := by
  apply List.ext_getElem?
  intro k
  rw [splice_getElem? s i [c0, c1, c2, c3] (by simp; omega) k]
  simp only [List.getElem?_set, List.length_set]
  by_cases e0 : i = k
  · rw [if_pos e0, if_pos (by omega), if_pos (by simp only [List.length_cons, List.length_nil]; omega)]
    have : k - i = 0 := by omega
    rw [this]
    rfl
  · rw [if_neg e0]
    by_cases e1 : i + 1 = k
    · rw [if_pos e1, if_pos (by omega), if_pos (by simp only [List.length_cons, List.length_nil]; omega)]
      have : k - i = 1 := by omega
      rw [this]
      rfl
    · rw [if_neg e1]
      by_cases e2 : i + 2 = k
      · rw [if_pos e2, if_pos (by omega), if_pos (by simp only [List.length_cons, List.length_nil]; omega)]
        have : k - i = 2 := by omega
        rw [this]
        rfl
      · rw [if_neg e2]
        by_cases e3 : i + 3 = k
        · rw [if_pos e3, if_pos (by omega), if_pos (by simp only [List.length_cons, List.length_nil]; omega)]
          have : k - i = 3 := by omega
          rw [this]
          rfl
        · rw [if_neg e3, if_neg (by simp; omega)]

theorem set3_eq_splice (s : List Nat) (i c0 c1 c2 : Nat) (h : i + 3 ≤ s.length) :
    ((s.set (i + 2) c2).set (i + 1) c1).set i c0 = splice s i [c0, c1, c2] := by
  apply List.ext_getElem?
  intro k
  rw [splice_getElem? s i [c0, c1, c2] (by simp; omega) k]
  simp only [List.getElem?_set, List.length_set]
  by_cases e0 : i = k
  · rw [if_pos e0, if_pos (by omega), if_pos (by simp only [List.length_cons, List.length_nil]; omega)]
    have : k - i = 0 := by omega
    rw [this]
    rfl
  · rw [if_neg e0]
    by_cases e1 : i + 1 = k
    · rw [if_pos e1, if_pos (by omega), if_pos (by simp only [List.length_cons, List.length_nil]; omega)]
      have : k - i = 1 := by omega
      rw [this]
      rfl
    · rw [if_neg e1]
      by_cases e2 : i + 2 = k
      · rw [if_pos e2, if_pos (by omega), if_pos (by simp only [List.length_cons, List.length_nil]; omega)]
        have : k - i = 2 := by omega
        rw [this]
        rfl
      · rw [if_neg e2, if_neg (by simp; omega)]

theorem set2_eq_splice (s : List Nat) (i c0 c1 : Nat) (h : i + 2 ≤ s.length) :
    (s.set (i + 1) c1).set i c0 = splice s i [c0, c1] := by
  apply List.ext_getElem?
  intro k
  rw [splice_getElem? s i [c0, c1] (by simp; omega) k]
  simp only [List.getElem?_set, List.length_set]
  by_cases e0 : i = k
  · rw [if_pos e0, if_pos (by omega), if_pos (by simp only [List.length_cons, List.length_nil]; omega)]
    have : k - i = 0 := by omega
    rw [this]
    rfl
  · rw [if_neg e0]
    by_cases e1 : i + 1 = k
    · rw [if_pos e1, if_pos (by omega), if_pos (by simp only [List.length_cons, List.length_nil]; omega)]
      have : k - i = 1 := by omega
      rw [this]
      rfl
    · rw [if_neg e1, if_neg (by simp; omega)]

/-! ### Reversal: the two-pointer swap loop reverses a prefix -/

theorem swapAt_length (s : List Nat) (i j : Nat) : (swapAt s i j).length = s.length := by
  unfold swapAt
  cases s[i]? <;> cases s[j]? <;> simp

theorem swapAt_getElem? (s : List Nat) (i j : Nat) (hi : i < s.length) (hj : j < s.length)
    (k : Nat) :
    (swapAt s i j)[k]? = if k = i then s[j]? else if k = j then s[i]? else s[k]? := by
  have hi' : s[i]? = some (s.get ⟨i, hi⟩) := by
    rw [List.getElem?_eq_getElem hi]
    rfl
  have hj' : s[j]? = some (s.get ⟨j, hj⟩) := by
    rw [List.getElem?_eq_getElem hj]
    rfl
  unfold swapAt
  rw [hi', hj']
  simp only
  rw [List.getElem?_set, List.getElem?_set, List.length_set]
  by_cases e2 : j = k
  · rw [if_pos e2, if_pos hj]
    by_cases e1 : k = i
    · rw [if_pos e1]
      have hij : i = j := by omega
      subst hij
      rfl
    · rw [if_neg e1, if_pos (by omega : k = j)]
  · rw [if_neg e2]
    by_cases e1 : i = k
    · rw [if_pos e1, if_pos hi, if_pos (by omega : k = i)]
    · rw [if_neg e1, if_neg (by omega : ¬ k = i), if_neg (by omega : ¬ k = j)]

theorem revLoopF_length : ∀ (f : Nat) (s : List Nat) (start e : Nat),
    (revLoopF f s start e).length = s.length := by
  intro f
  induction f with
  | zero => intro s start e; rfl
  | succ f ih =>
    intro s start e
    simp only [revLoopF]
    by_cases hse : start < e
    · rw [if_pos hse, ih, swapAt_length]
    · rw [if_neg hse]

theorem revLoopF_getElem? : ∀ (f : Nat) (s : List Nat) (start e : Nat), e < s.length →
    e - start < f → ∀ k,
    (revLoopF f s start e)[k]? = if start ≤ k ∧ k ≤ e then s[start + e - k]? else s[k]? := by
  intro f
  induction f with
  | zero => intro s start e _ hf k; exact absurd hf (Nat.not_lt_zero _)
  | succ f ih =>
    intro s start e he hf k
    simp only [revLoopF]
    by_cases hse : start < e
    · rw [if_pos hse]
      have hsl : (swapAt s start e).length = s.length := swapAt_length s start e
      rw [ih (swapAt s start e) (start + 1) (e - 1) (by omega) (by omega) k]
      by_cases h1 : start + 1 ≤ k ∧ k ≤ e - 1
      · rw [if_pos h1, if_pos ⟨by omega, by omega⟩]
        have hidx : start + 1 + (e - 1) - k = start + e - k := by omega
        rw [hidx, swapAt_getElem? s start e (by omega) he (start + e - k),
          if_neg (by omega), if_neg (by omega)]
      · rw [if_neg h1, swapAt_getElem? s start e (by omega) he k]
        by_cases hk1 : k = start
        · rw [if_pos hk1, if_pos ⟨by omega, by omega⟩]
          congr 1
          omega
        · rw [if_neg hk1]
          by_cases hk2 : k = e
          · rw [if_pos hk2, if_pos ⟨by omega, by omega⟩]
            congr 1
            omega
          · rw [if_neg hk2, if_neg (by omega)]
    · rw [if_neg hse]
      by_cases hk : start ≤ k ∧ k ≤ e
      · rw [if_pos hk]
        congr 1
        omega
      · rw [if_neg hk]

theorem reverse_length (s : List Nat) (len : Nat) : (reverse s len).length = s.length := by
  unfold reverse
  by_cases h : len = 0
  · rw [if_pos h]
  · rw [if_neg h, revLoopF_length]

theorem reverse_getElem? (s : List Nat) (len : Nat) (h : len ≤ s.length) (k : Nat) :
    (reverse s len)[k]? = if k < len then s[len - 1 - k]? else s[k]? := by
  unfold reverse
  by_cases h0 : len = 0
  · rw [if_pos h0, if_neg (by omega)]
  · rw [if_neg h0, revLoopF_getElem? len s 0 (len - 1) (by omega) (by omega) k]
    by_cases hk : k < len
    · rw [if_pos ⟨Nat.zero_le k, by omega⟩, if_pos hk]
      congr 1
      omega
    · rw [if_neg (by omega), if_neg hk]

/-- The in-place two-pointer loop computes a functional prefix reversal. -/
theorem reverse_spec (s : List Nat) (len : Nat) (h : len ≤ s.length) :
    reverse s len = (s.take len).reverse ++ s.drop len := by
  have htl : (s.take len).reverse.length = len := by
    rw [List.length_reverse, List.length_take]
    omega
  have hlt : (List.take len s).length = len := by
    rw [List.length_take]
    omega
  apply List.ext_getElem?
  intro k
  rw [reverse_getElem? s len h k, List.getElem?_append, htl]
  by_cases hk : k < len
  · rw [if_pos hk, if_pos hk,
      List.getElem?_reverse (by rw [hlt]; exact hk), hlt, List.getElem?_take,
      if_pos (by omega)]
  · rw [if_neg hk, if_neg hk, List.getElem?_drop]
    congr 1
    omega

/-! ### The digit loops write the little-endian digit string -/

theorem setAt_some (s : List Nat) (i c : Nat) (h : i < s.length) :
    setAt s i c = some (s.set i c) := if_pos h

theorem setAt_none (s : List Nat) (i c : Nat) (h : s.length ≤ i) :
    setAt s i c = none := if_neg (by omega)

theorem digitLoop_spec (b : Nat) (hb : 2 ≤ b) (hb36 : b ≤ 36) : ∀ (v i : Nat) (s : List Nat),
    i + (digitsLSB b v).length ≤ s.length →
    digitLoop b v i s
      = some (i + (digitsLSB b v).length, splice s i ((digitsLSB b v).map lkChar)) := by
  intro v
  induction v using Nat.strong_induction_on with
  | _ v ih =>
    intro i s hs
    by_cases hv : v = 0
    · subst hv
      rw [digitLoop_zero, digitsLSB_zero]
      simp [splice_nil]
    · have hcons := digitsLSB_cons b v hb hv
      have hlen1 : (digitsLSB b v).length = (digitsLSB b (v / b)).length + 1 := by
        rw [hcons]
        rfl
      have hmodb : v % b < b := Nat.mod_lt v (by omega)
      have hio : i < s.length := by omega
      rw [digitLoop_step b v i s hb hv, lookup_get? (v % b) (by omega), Option.some_bind,
        setAt_some s i (lkChar (v % b)) hio, Option.some_bind]
      rw [ih (v / b) (Nat.div_lt_self (Nat.pos_of_ne_zero hv) (by omega)) (i + 1)
        (s.set i (lkChar (v % b))) (by rw [List.length_set]; omega)]
      rw [hcons]
      simp only [List.map_cons, List.length_cons]
      rw [splice_cons s i (lkChar (v % b)) ((digitsLSB b (v / b)).map lkChar)
        (by simp only [List.length_cons, List.length_map]; omega)]
      rw [show i + ((digitsLSB b (v / b)).length + 1) = i + 1 + (digitsLSB b (v / b)).length
        from by omega]

theorem digitLoop_none (b : Nat) (hb : 2 ≤ b) (hb36 : b ≤ 36) : ∀ (v i : Nat) (s : List Nat),
    v ≠ 0 → s.length < i + (digitsLSB b v).length →
    digitLoop b v i s = none := by
  intro v
  induction v using Nat.strong_induction_on with
  | _ v ih =>
    intro i s hv hs
    have hcons := digitsLSB_cons b v hb hv
    have hmodb : v % b < b := Nat.mod_lt v (by omega)
    rw [digitLoop_step b v i s hb hv, lookup_get? (v % b) (by omega), Option.some_bind]
    by_cases hio : i < s.length
    · rw [setAt_some s i (lkChar (v % b)) hio, Option.some_bind]
      have hvb : v / b ≠ 0 := by
        intro h0
        rw [hcons, h0, digitsLSB_zero] at hs
        simp only [List.length_cons, List.length_nil] at hs
        omega
      apply ih (v / b) (Nat.div_lt_self (Nat.pos_of_ne_zero hv) (by omega)) (i + 1)
      · exact hvb
      · rw [List.length_set]
        rw [hcons] at hs
        simp only [List.length_cons] at hs
        omega
    · rw [setAt_none s i (lkChar (v % b)) (by omega)]
      rfl

theorem digitsLSB10_big (v : Nat) (h : 9999 < v) :
    digitsLSB 10 v
      = v % 10 :: v / 10 % 10 :: v / 100 % 10 :: v / 1000 % 10 :: digitsLSB 10 (v / 10000) := by
  rw [digitsLSB_cons 10 v (by omega) (by omega),
    digitsLSB_cons 10 (v / 10) (by omega) (by omega),
    digitsLSB_cons 10 (v / 10 / 10) (by omega) (by omega),
    digitsLSB_cons 10 (v / 10 / 10 / 10) (by omega) (by omega),
    show v / 10 / 10 = v / 100 from by omega,
    show v / 100 / 10 = v / 1000 from by omega,
    show v / 1000 / 10 = v / 10000 from by omega]

theorem digitsLSB10_4 (v : Nat) (h1 : 999 < v) (h2 : v ≤ 9999) :
    digitsLSB 10 v = [v % 10, v / 10 % 10, v / 100 % 10, v / 1000] := by
  rw [digitsLSB_cons 10 v (by omega) (by omega),
    digitsLSB_cons 10 (v / 10) (by omega) (by omega),
    digitsLSB_cons 10 (v / 10 / 10) (by omega) (by omega),
    digitsLSB_cons 10 (v / 10 / 10 / 10) (by omega) (by omega),
    show v / 10 / 10 = v / 100 from by omega,
    show v / 100 / 10 = v / 1000 from by omega,
    show v / 1000 / 10 = v / 10000 from by omega,
    show v / 10000 = 0 from by omega, digitsLSB_zero,
    show v / 1000 % 10 = v / 1000 from by omega]

theorem digitsLSB10_3 (v : Nat) (h1 : 99 < v) (h2 : v ≤ 999) :
    digitsLSB 10 v = [v % 10, v / 10 % 10, v / 100] := by
  rw [digitsLSB_cons 10 v (by omega) (by omega),
    digitsLSB_cons 10 (v / 10) (by omega) (by omega),
    digitsLSB_cons 10 (v / 10 / 10) (by omega) (by omega),
    show v / 10 / 10 = v / 100 from by omega,
    show v / 100 / 10 = 0 from by omega, digitsLSB_zero,
    show v / 100 % 10 = v / 100 from by omega]

theorem digitsLSB10_2 (v : Nat) (h1 : 9 < v) (h2 : v ≤ 99) :
    digitsLSB 10 v = [v % 10, v / 10] := by
  rw [digitsLSB_cons 10 v (by omega) (by omega),
    digitsLSB_cons 10 (v / 10) (by omega) (by omega),
    show v / 10 / 10 = 0 from by omega, digitsLSB_zero,
    show v / 10 % 10 = v / 10 from by omega]

theorem digitsLSB10_1 (v : Nat) (h1 : 0 < v) (h2 : v ≤ 9) :
    digitsLSB 10 v = [v] := by
  rw [digitsLSB_cons 10 v (by omega) (by omega),
    show v / 10 = 0 from by omega, digitsLSB_zero,
    show v % 10 = v from by omega]

theorem base10Loop_spec : ∀ (v i : Nat) (s : List Nat), v ≠ 0 →
    i + (digitsLSB 10 v).length ≤ s.length →
    base10Loop v i s
      = some (i + (digitsLSB 10 v).length, splice s i ((digitsLSB 10 v).map lkChar)) := by
  intro v
  induction v using Nat.strong_induction_on with
  | _ v ih =>
    intro i s hv hs
    by_cases hA : 9999 < v
    · have hshape := digitsLSB10_big v hA
      have hrest_ne : v / 10000 ≠ 0 := by omega
      have hrestlen : 1 ≤ (digitsLSB 10 (v / 10000)).length := by
        rw [digitsLSB_cons 10 (v / 10000) (by omega) hrest_ne]
        simp
      have hlen : (digitsLSB 10 v).length = (digitsLSB 10 (v / 10000)).length + 4 := by
        rw [hshape]
        simp only [List.length_cons]
      have hi3 : i + 3 < s.length := by omega
      rw [base10Loop_step v i s hA,
        setAt_some s (i + 3) _ hi3, Option.some_bind,
        setAt_some _ (i + 2) _ (by rw [List.length_set]; omega), Option.some_bind,
        setAt_some _ (i + 1) _ (by rw [List.length_set, List.length_set]; omega),
        Option.some_bind,
        setAt_some _ i _ (by rw [List.length_set, List.length_set, List.length_set]; omega),
        Option.some_bind]
      rw [ih (v / 10000) (Nat.div_lt_self (by omega) (by omega)) (i + 4) _ hrest_ne
        (by simp only [List.length_set]; omega)]
      rw [show v % 10000 / 1000 = v / 1000 % 10 from by omega,
        show v % 10000 % 1000 / 100 = v / 100 % 10 from by omega,
        show v % 10000 % 100 / 10 = v / 10 % 10 from by omega,
        show v % 10000 % 10 = v % 10 from by omega]
      rw [set4_eq_splice s i (lkChar (v % 10)) (lkChar (v / 10 % 10)) (lkChar (v / 100 % 10))
        (lkChar (v / 1000 % 10)) (by omega)]
      have happ := splice_append s i
        [lkChar (v % 10), lkChar (v / 10 % 10), lkChar (v / 100 % 10), lkChar (v / 1000 % 10)]
        ((digitsLSB 10 (v / 10000)).map lkChar)
        (by simp only [List.length_cons, List.length_nil, List.length_map]; omega)
      simp only [List.length_cons, List.length_nil] at happ
      rw [show (0 : Nat) + 1 + 1 + 1 + 1 = 4 from rfl] at happ
      rw [← happ, hshape]
      simp only [List.map_cons, List.length_cons, List.cons_append, List.nil_append]
      rw [show i + ((digitsLSB 10 (v / 10000)).length + 1 + 1 + 1 + 1)
        = i + 4 + ((digitsLSB 10 (v / 10000)).map lkChar).length from by
          simp only [List.length_map]; omega]
      simp only [List.length_map]
    · rw [base10Loop_last v i s (by omega)]
      by_cases hB : 999 < v
      · have hshape := digitsLSB10_4 v hB (by omega)
        have hlen : (digitsLSB 10 v).length = 4 := by
          rw [hshape]
          rfl
        rw [if_pos hB,
          setAt_some s (i + 3) _ (by omega), Option.some_bind,
          setAt_some _ (i + 2) _ (by rw [List.length_set]; omega), Option.some_bind,
          setAt_some _ (i + 1) _ (by rw [List.length_set, List.length_set]; omega),
          Option.some_bind,
          setAt_some _ i _ (by rw [List.length_set, List.length_set, List.length_set]; omega),
          Option.some_bind]
        rw [show v % 1000 / 100 = v / 100 % 10 from by omega,
          show v % 1000 % 100 / 10 = v / 10 % 10 from by omega,
          show v % 1000 % 10 = v % 10 from by omega]
        rw [set4_eq_splice s i (lkChar (v % 10)) (lkChar (v / 10 % 10)) (lkChar (v / 100 % 10))
          (lkChar (v / 1000)) (by omega)]
        rw [hshape]
        simp only [List.map_cons, List.map_nil, List.length_cons, List.length_nil]
      · by_cases hC : 99 < v
        · have hshape := digitsLSB10_3 v hC (by omega)
          have hlen : (digitsLSB 10 v).length = 3 := by
            rw [hshape]
            rfl
          rw [if_neg hB, if_pos hC,
            setAt_some s (i + 2) _ (by omega), Option.some_bind,
            setAt_some _ (i + 1) _ (by rw [List.length_set]; omega), Option.some_bind,
            setAt_some _ i _ (by rw [List.length_set, List.length_set]; omega),
            Option.some_bind]
          rw [show v % 100 / 10 = v / 10 % 10 from by omega,
            show v % 100 % 10 = v % 10 from by omega]
          rw [set3_eq_splice s i (lkChar (v % 10)) (lkChar (v / 10 % 10)) (lkChar (v / 100))
            (by omega)]
          rw [hshape]
          simp only [List.map_cons, List.map_nil, List.length_cons, List.length_nil]
        · by_cases hD : 9 < v
          · have hshape := digitsLSB10_2 v hD (by omega)
            have hlen : (digitsLSB 10 v).length = 2 := by
              rw [hshape]
              rfl
            rw [if_neg hB, if_neg hC, if_pos hD,
              setAt_some s (i + 1) _ (by omega), Option.some_bind,
              setAt_some _ i _ (by rw [List.length_set]; omega), Option.some_bind]
            rw [set2_eq_splice s i (lkChar (v % 10)) (lkChar (v / 10)) (by omega)]
            rw [hshape]
            simp only [List.map_cons, List.map_nil, List.length_cons, List.length_nil]
          · have hshape := digitsLSB10_1 v (by omega) (by omega)
            have hlen : (digitsLSB 10 v).length = 1 := by
              rw [hshape]
              rfl
            rw [if_neg hB, if_neg hC, if_neg hD,
              setAt_some s i _ (by omega), Option.some_bind]
            rw [set_eq_splice s i (lkChar v) (by omega)]
            rw [hshape]
            simp only [List.map_cons, List.map_nil, List.length_cons, List.length_nil]

theorem base10Loop_none : ∀ (v i : Nat) (s : List Nat), v ≠ 0 →
    s.length < i + (digitsLSB 10 v).length →
    base10Loop v i s = none := by
  intro v
  induction v using Nat.strong_induction_on with
  | _ v ih =>
    intro i s hv hs
    by_cases hA : 9999 < v
    · have hrest_ne : v / 10000 ≠ 0 := by omega
      have hlen : (digitsLSB 10 v).length = (digitsLSB 10 (v / 10000)).length + 4 := by
        rw [digitsLSB10_big v hA]
        simp only [List.length_cons]
      rw [base10Loop_step v i s hA]
      by_cases hi3 : i + 3 < s.length
      · rw [setAt_some s (i + 3) _ hi3, Option.some_bind,
          setAt_some _ (i + 2) _ (by rw [List.length_set]; omega), Option.some_bind,
          setAt_some _ (i + 1) _ (by rw [List.length_set, List.length_set]; omega),
          Option.some_bind,
          setAt_some _ i _ (by rw [List.length_set, List.length_set, List.length_set]; omega),
          Option.some_bind]
        exact ih (v / 10000) (Nat.div_lt_self (by omega) (by omega)) (i + 4) _ hrest_ne
          (by simp only [List.length_set]; omega)
      · rw [setAt_none s (i + 3) _ (by omega)]
        rfl
    · rw [base10Loop_last v i s (by omega)]
      by_cases hB : 999 < v
      · have hlen : (digitsLSB 10 v).length = 4 := by
          rw [digitsLSB10_4 v hB (by omega)]
          rfl
        rw [if_pos hB, setAt_none s (i + 3) _ (by omega)]
        rfl
      · by_cases hC : 99 < v
        · have hlen : (digitsLSB 10 v).length = 3 := by
            rw [digitsLSB10_3 v hC (by omega)]
            rfl
          rw [if_neg hB, if_pos hC, setAt_none s (i + 2) _ (by omega)]
          rfl
        · by_cases hD : 9 < v
          · have hlen : (digitsLSB 10 v).length = 2 := by
              rw [digitsLSB10_2 v hD (by omega)]
              rfl
            rw [if_neg hB, if_neg hC, if_pos hD, setAt_none s (i + 1) _ (by omega)]
            rfl
          · have hlen : (digitsLSB 10 v).length = 1 := by
              rw [digitsLSB10_1 v (by omega) (by omega)]
              rfl
            rw [if_neg hB, if_neg hC, if_neg hD, setAt_none s i _ (by omega)]
            rfl

/-- The batched base-10 extraction and the one-digit-at-a-time division
loop at base 10 agree exactly on every nonzero value, every start index
and every buffer (both on success and on buffer overrun). -/
theorem base10_eq_digitLoop (v i : Nat) (s : List Nat) (hv : v ≠ 0) :
    base10Loop v i s = digitLoop 10 v i s := by
  by_cases hs : i + (digitsLSB 10 v).length ≤ s.length
  · rw [base10Loop_spec v i s hv hs,
      digitLoop_spec 10 (by omega) (by omega) v i s hs]
  · rw [base10Loop_none v i s hv (by omega),
      digitLoop_none 10 (by omega) (by omega) v i s hv (by omega)]

/-! ### End-to-end behaviour of the conversion entry points -/

theorem reverse_splice_zero (s : List Nat) (xs : List Nat) (h : xs.length ≤ s.length) :
    reverse (splice s 0 xs) xs.length = xs.reverse ++ s.drop xs.length := by
  have h1 : splice s 0 xs = xs ++ s.drop xs.length := by
    simp [splice]
  rw [h1, reverse_spec _ _ (by simp only [List.length_append, List.length_drop]; omega),
    List.take_left, List.drop_left]

theorem reverse_splice_sign (s : List Nat) (xs : List Nat) (h : xs.length + 1 ≤ s.length) :
    reverse ((splice s 0 xs).set xs.length 45) (xs.length + 1)
      = 45 :: xs.reverse ++ s.drop (xs.length + 1) := by
  have hsp : (splice s 0 xs).length = s.length := splice_length s 0 xs (by omega)
  have h1 : (splice s 0 xs).set xs.length 45 = splice s 0 (xs ++ [45]) := by
    rw [set_eq_splice _ _ _ (by omega)]
    have happ := splice_append s 0 xs [45] (by simp only [List.length_cons, List.length_nil]; omega)
    rw [show (0 : Nat) + xs.length = xs.length from by omega] at happ
    rw [← happ]
  rw [h1]
  have h2 : xs.length + 1 = (xs ++ [45]).length := by
    simp
  rw [h2, reverse_splice_zero s (xs ++ [45]) (by simp only [List.length_append]; simp; omega)]
  simp [List.reverse_append]

theorem numtoa_u_spec (v b : Nat) (s : List Nat) (hv : v ≠ 0) (hb : 2 ≤ b) (hb36 : b ≤ 36)
    (hs : (digitsLSB b v).length ≤ s.length) :
    numtoa_u v b s = some ((digitsLSB b v).length,
      ((digitsLSB b v).map lkChar).reverse ++ s.drop (digitsLSB b v).length) := by
  unfold numtoa_u
  rw [if_neg hv]
  have hmap : ((digitsLSB b v).map lkChar).length = (digitsLSB b v).length :=
    List.length_map _ _
  by_cases hb10 : b = 10
  · subst hb10
    rw [if_pos rfl, base10Loop_spec v 0 s hv (by omega)]
    simp only [Option.some_bind, Nat.zero_add]
    rw [show (digitsLSB 10 v).length = ((digitsLSB 10 v).map lkChar).length from hmap.symm,
      reverse_splice_zero s ((digitsLSB 10 v).map lkChar) (by rw [hmap]; omega)]
  · rw [if_neg hb10, digitLoop_spec b hb hb36 v 0 s (by omega)]
    simp only [Option.some_bind, Nat.zero_add]
    rw [show (digitsLSB b v).length = ((digitsLSB b v).map lkChar).length from hmap.symm,
      reverse_splice_zero s ((digitsLSB b v).map lkChar) (by rw [hmap]; omega)]

theorem numtoa_u8_spec (v b : Nat) (s : List Nat) (hv : v ≠ 0) (hb : 2 ≤ b) (hb36 : b ≤ 36)
    (hs : (digitsLSB b v).length ≤ s.length) :
    numtoa_u8 v b s = some ((digitsLSB b v).length,
      ((digitsLSB b v).map lkChar).reverse ++ s.drop (digitsLSB b v).length) := by
  unfold numtoa_u8
  rw [if_neg hv]
  have hmap : ((digitsLSB b v).map lkChar).length = (digitsLSB b v).length :=
    List.length_map _ _
  rw [digitLoop_spec b hb hb36 v 0 s (by omega)]
  simp only [Option.some_bind, Nat.zero_add]
  rw [show (digitsLSB b v).length = ((digitsLSB b v).map lkChar).length from hmap.symm,
    reverse_splice_zero s ((digitsLSB b v).map lkChar) (by rw [hmap]; omega)]

theorem int_loop_as_nat (b : Int) (hb2 : 2 ≤ b) (n i : Nat) (s : List Nat) :
    digitLoopI b (n : Int) i s = digitLoop b.toNat n i s := by
  rw [show b = ((b.toNat : Nat) : Int) from (Int.toNat_of_nonneg (by omega)).symm]
  rw [Int.toNat_ofNat]
  exact digitLoopI_coe b.toNat (by omega) n i s

theorem numtoaSignedCore_pos (n : Nat) (b : Int) (s : List Nat) (hn : n ≠ 0)
    (hb2 : 2 ≤ b) (hb36 : b ≤ 36) (hs : (digitsLSB b.toNat n).length ≤ s.length) :
    numtoaSignedCore false n b s = some ((digitsLSB b.toNat n).length,
      ((digitsLSB b.toNat n).map lkChar).reverse ++ s.drop (digitsLSB b.toNat n).length) := by
  unfold numtoaSignedCore
  have hbt2 : 2 ≤ b.toNat := by omega
  have hbt36 : b.toNat ≤ 36 := by omega
  have hmap : ((digitsLSB b.toNat n).map lkChar).length = (digitsLSB b.toNat n).length :=
    List.length_map _ _
  by_cases hb10 : b = 10
  · subst hb10
    rw [show ((10 : Int)).toNat = 10 from rfl] at hs hmap ⊢
    rw [if_pos rfl, base10Loop_spec n 0 s hn (by omega)]
    simp only [Option.some_bind, Nat.zero_add, Bool.false_eq_true, if_false]
    rw [show (digitsLSB 10 n).length = ((digitsLSB 10 n).map lkChar).length from hmap.symm,
      reverse_splice_zero s ((digitsLSB 10 n).map lkChar) (by rw [hmap]; omega)]
  · rw [if_neg hb10, int_loop_as_nat b hb2 n 0 s,
      digitLoop_spec b.toNat hbt2 hbt36 n 0 s (by omega)]
    simp only [Option.some_bind, Nat.zero_add, Bool.false_eq_true, if_false]
    rw [show (digitsLSB b.toNat n).length = ((digitsLSB b.toNat n).map lkChar).length
        from hmap.symm,
      reverse_splice_zero s ((digitsLSB b.toNat n).map lkChar) (by rw [hmap]; omega)]

theorem numtoaSignedCore_neg (n : Nat) (b : Int) (s : List Nat) (hn : n ≠ 0)
    (hb2 : 2 ≤ b) (hb36 : b ≤ 36) (hs : (digitsLSB b.toNat n).length + 1 ≤ s.length) :
    numtoaSignedCore true n b s = some ((digitsLSB b.toNat n).length + 1,
      45 :: ((digitsLSB b.toNat n).map lkChar).reverse
        ++ s.drop ((digitsLSB b.toNat n).length + 1)) := by
  unfold numtoaSignedCore
  have hbt2 : 2 ≤ b.toNat := by omega
  have hbt36 : b.toNat ≤ 36 := by omega
  have hmap : ((digitsLSB b.toNat n).map lkChar).length = (digitsLSB b.toNat n).length :=
    List.length_map _ _
  have hsp : (splice s 0 ((digitsLSB b.toNat n).map lkChar)).length = s.length :=
    splice_length s 0 _ (by rw [hmap]; omega)
  by_cases hb10 : b = 10
  · subst hb10
    rw [show ((10 : Int)).toNat = 10 from rfl] at hs hmap hsp ⊢
    rw [if_pos rfl, base10Loop_spec n 0 s hn (by omega)]
    simp only [Option.some_bind, Nat.zero_add, if_true]
    rw [setAt_some _ _ _ (by rw [hsp]; omega), Option.some_bind]
    rw [show (digitsLSB 10 n).length = ((digitsLSB 10 n).map lkChar).length from hmap.symm,
      reverse_splice_sign s ((digitsLSB 10 n).map lkChar) (by rw [hmap]; omega)]
  · rw [if_neg hb10, int_loop_as_nat b hb2 n 0 s,
      digitLoop_spec b.toNat hbt2 hbt36 n 0 s (by omega)]
    simp only [Option.some_bind, Nat.zero_add, if_true]
    rw [setAt_some _ _ _ (by rw [hsp]; omega), Option.some_bind]
    rw [show (digitsLSB b.toNat n).length = ((digitsLSB b.toNat n).map lkChar).length
        from hmap.symm,
      reverse_splice_sign s ((digitsLSB b.toNat n).map lkChar) (by rw [hmap]; omega)]

theorem numtoaSignedCore8_pos (n : Nat) (b : Int) (s : List Nat) (hn : n ≠ 0)
    (hb2 : 2 ≤ b) (hb36 : b ≤ 36) (hs : (digitsLSB b.toNat n).length ≤ s.length) :
    numtoaSignedCore8 false n b s = some ((digitsLSB b.toNat n).length,
      ((digitsLSB b.toNat n).map lkChar).reverse ++ s.drop (digitsLSB b.toNat n).length) := by
  unfold numtoaSignedCore8
  have hbt2 : 2 ≤ b.toNat := by omega
  have hbt36 : b.toNat ≤ 36 := by omega
  have hmap : ((digitsLSB b.toNat n).map lkChar).length = (digitsLSB b.toNat n).length :=
    List.length_map _ _
  rw [int_loop_as_nat b hb2 n 0 s, digitLoop_spec b.toNat hbt2 hbt36 n 0 s (by omega)]
  simp only [Option.some_bind, Nat.zero_add, Bool.false_eq_true, if_false]
  rw [show (digitsLSB b.toNat n).length = ((digitsLSB b.toNat n).map lkChar).length
      from hmap.symm,
    reverse_splice_zero s ((digitsLSB b.toNat n).map lkChar) (by rw [hmap]; omega)]

theorem numtoaSignedCore8_neg (n : Nat) (b : Int) (s : List Nat) (hn : n ≠ 0)
    (hb2 : 2 ≤ b) (hb36 : b ≤ 36) (hs : (digitsLSB b.toNat n).length + 1 ≤ s.length) :
    numtoaSignedCore8 true n b s = some ((digitsLSB b.toNat n).length + 1,
      45 :: ((digitsLSB b.toNat n).map lkChar).reverse
        ++ s.drop ((digitsLSB b.toNat n).length + 1)) := by
  unfold numtoaSignedCore8
  have hbt2 : 2 ≤ b.toNat := by omega
  have hbt36 : b.toNat ≤ 36 := by omega
  have hmap : ((digitsLSB b.toNat n).map lkChar).length = (digitsLSB b.toNat n).length :=
    List.length_map _ _
  have hsp : (splice s 0 ((digitsLSB b.toNat n).map lkChar)).length = s.length :=
    splice_length s 0 _ (by rw [hmap]; omega)
  rw [int_loop_as_nat b hb2 n 0 s, digitLoop_spec b.toNat hbt2 hbt36 n 0 s (by omega)]
  simp only [Option.some_bind, Nat.zero_add, if_true]
  rw [setAt_some _ _ _ (by rw [hsp]; omega), Option.some_bind]
  rw [show (digitsLSB b.toNat n).length = ((digitsLSB b.toNat n).map lkChar).length
      from hmap.symm,
    reverse_splice_sign s ((digitsLSB b.toNat n).map lkChar) (by rw [hmap]; omega)]

theorem numtoa_i_spec (w : Nat) (v b : Int) (s : List Nat) (hv : v ≠ 0)
    (hmin : v ≠ -(2 ^ (w - 1) : Int)) (hb2 : 2 ≤ b) (hb36 : b ≤ 36)
    (hs : (digitsLSB b.toNat v.natAbs).length + (if v < 0 then 1 else 0) ≤ s.length) :
    numtoa_i w v b s
      = some ((digitsLSB b.toNat v.natAbs).length + (if v < 0 then 1 else 0),
        (if v < 0 then 45 :: ((digitsLSB b.toNat v.natAbs).map lkChar).reverse
          else ((digitsLSB b.toNat v.natAbs).map lkChar).reverse)
          ++ s.drop ((digitsLSB b.toNat v.natAbs).length + (if v < 0 then 1 else 0))) := by
  unfold numtoa_i
  have hnA : v.natAbs ≠ 0 := by
    simpa using hv
  by_cases hneg : v < 0
  · rw [if_pos hneg, if_neg hmin]
    simp only [if_pos hneg] at hs ⊢
    rw [numtoaSignedCore_neg v.natAbs b s hnA hb2 hb36 (by omega)]
  · rw [if_neg hneg, if_neg hv]
    simp only [if_neg hneg] at hs ⊢
    rw [numtoaSignedCore_pos v.natAbs b s hnA hb2 hb36 (by omega)]
    simp

theorem numtoa_i8_spec (v b : Int) (s : List Nat) (hv : v ≠ 0)
    (hmin : v ≠ -128) (hb2 : 2 ≤ b) (hb36 : b ≤ 36)
    (hs : (digitsLSB b.toNat v.natAbs).length + (if v < 0 then 1 else 0) ≤ s.length) :
    numtoa_i8 v b s
      = some ((digitsLSB b.toNat v.natAbs).length + (if v < 0 then 1 else 0),
        (if v < 0 then 45 :: ((digitsLSB b.toNat v.natAbs).map lkChar).reverse
          else ((digitsLSB b.toNat v.natAbs).map lkChar).reverse)
          ++ s.drop ((digitsLSB b.toNat v.natAbs).length + (if v < 0 then 1 else 0))) := by
  unfold numtoa_i8
  have hnA : v.natAbs ≠ 0 := by
    simpa using hv
  by_cases hneg : v < 0
  · rw [if_pos hneg, if_neg hmin]
    simp only [if_pos hneg] at hs ⊢
    rw [numtoaSignedCore8_neg v.natAbs b s hnA hb2 hb36 (by omega)]
  · rw [if_neg hneg, if_neg hv]
    simp only [if_neg hneg] at hs ⊢
    rw [numtoaSignedCore8_pos v.natAbs b s hnA hb2 hb36 (by omega)]
    simp

theorem numtoa_u_zero (b : Nat) (s : List Nat) (hs : 1 ≤ s.length) :
    numtoa_u 0 b s = some (1, s.set 0 48) := by
  unfold numtoa_u
  rw [if_pos rfl, setAt_some s 0 48 (by omega)]
  rfl

theorem numtoa_u8_zero (b : Nat) (s : List Nat) (hs : 1 ≤ s.length) :
    numtoa_u8 0 b s = some (1, s.set 0 48) := by
  unfold numtoa_u8
  rw [if_pos rfl, setAt_some s 0 48 (by omega)]
  rfl

theorem numtoa_i_zero (w : Nat) (b : Int) (s : List Nat) (hs : 1 ≤ s.length) :
    numtoa_i w 0 b s = some (1, s.set 0 48) := by
  unfold numtoa_i
  rw [if_neg (by omega : ¬ (0 : Int) < 0), if_pos rfl, setAt_some s 0 48 (by omega)]
  rfl

theorem numtoa_i8_zero (b : Int) (s : List Nat) (hs : 1 ≤ s.length) :
    numtoa_i8 0 b s = some (1, s.set 0 48) := by
  unfold numtoa_i8
  rw [if_neg (by omega : ¬ (0 : Int) < 0), if_pos rfl, setAt_some s 0 48 (by omega)]
  rfl

/-! ### The produced text parses back to the input value -/

theorem parseNat_digits (b : Nat) (hb2 : 2 ≤ b) (hb36 : b ≤ 36) : ∀ v acc : Nat,
    List.foldl (fun acc c => acc * b + charVal c) acc (((digitsLSB b v).map lkChar).reverse)
      = acc * b ^ (digitsLSB b v).length + v := by
  intro v
  induction v using Nat.strong_induction_on with
  | _ v ih =>
    intro acc
    by_cases hv : v = 0
    · subst hv
      rw [digitsLSB_zero]
      simp
    · rw [digitsLSB_cons b v hb2 hv]
      simp only [List.map_cons, List.reverse_cons, List.foldl_append, List.length_cons]
      rw [ih (v / b) (Nat.div_lt_self (Nat.pos_of_ne_zero hv) (by omega)) acc]
      simp only [List.foldl_cons, List.foldl_nil]
      rw [charVal_lkChar (v % b) (by
        have := Nat.mod_lt v (show 0 < b by omega)
        omega)]
      calc (acc * b ^ (digitsLSB b (v / b)).length + v / b) * b + v % b
          = acc * (b ^ (digitsLSB b (v / b)).length * b) + (b * (v / b) + v % b) := by ring
        _ = acc * b ^ ((digitsLSB b (v / b)).length + 1) + v := by
            rw [← pow_succ, Nat.div_add_mod]

theorem parseNat_numtoa (b v : Nat) (hb2 : 2 ≤ b) (hb36 : b ≤ 36) :
    parseNat b (((digitsLSB b v).map lkChar).reverse) = v := by
  unfold parseNat
  rw [parseNat_digits b hb2 hb36 v 0]
  simp

theorem digitsLSB_lt (b : Nat) (hb : 2 ≤ b) : ∀ v, ∀ d ∈ digitsLSB b v, d < b := by
  intro v
  induction v using Nat.strong_induction_on with
  | _ v ih =>
    by_cases hv : v = 0
    · subst hv
      rw [digitsLSB_zero]
      intro d hd
      simp at hd
    · rw [digitsLSB_cons b v hb hv]
      intro d hd
      rcases List.mem_cons.mp hd with h | h
      · subst h
        exact Nat.mod_lt v (by omega)
      · exact ih (v / b) (Nat.div_lt_self (Nat.pos_of_ne_zero hv) (by omega)) d h

theorem numtoa_head_not_dash (b v : Nat) (hb2 : 2 ≤ b) (hb36 : b ≤ 36) :
    ¬ (((digitsLSB b v).map lkChar).reverse).head? = some 45 := by
  intro hcontra
  have hmem : 45 ∈ ((digitsLSB b v).map lkChar).reverse := by
    apply List.mem_of_mem_head?
    rw [hcontra]
    rfl
  rw [List.mem_reverse, List.mem_map] at hmem
  obtain ⟨d, hd, hlk⟩ := hmem
  have hdb := digitsLSB_lt b hb2 v d hd
  exact lkChar_ne_dash d (by omega) hlk

theorem parseBytes_pos (b : Nat) (v : Nat) (hb2 : 2 ≤ b) (hb36 : b ≤ 36) :
    parseBytes b (((digitsLSB b v).map lkChar).reverse) = (v : Int) := by
  unfold parseBytes
  rw [if_neg (numtoa_head_not_dash b v hb2 hb36), parseNat_numtoa b v hb2 hb36]

theorem parseBytes_neg (b : Nat) (v : Nat) (hb2 : 2 ≤ b) (hb36 : b ≤ 36) :
    parseBytes b (45 :: ((digitsLSB b v).map lkChar).reverse) = -(v : Int) := by
  unfold parseBytes
  simp only [List.head?_cons, List.tail_cons, if_true]
  rw [parseNat_numtoa b v hb2 hb36]

/-! ### Digit count agrees with the canonical representation -/

theorem digitsLSB_eq_digits (b : Nat) (hb : 2 ≤ b) : ∀ v, digitsLSB b v = Nat.digits b v := by
  intro v
  induction v using Nat.strong_induction_on with
  | _ v ih =>
    by_cases hv : v = 0
    · subst hv
      rw [digitsLSB_zero]
      simp
    · rw [digitsLSB_cons b v hb hv,
        Nat.digits_def' (show 1 < b by omega) (Nat.pos_of_ne_zero hv),
        ih (v / b) (Nat.div_lt_self (Nat.pos_of_ne_zero hv) (by omega))]

theorem digitsLSB_length_log (b v : Nat) (hb : 2 ≤ b) (hv : v ≠ 0) :
    (digitsLSB b v).length = Nat.log b v + 1 := by
  rw [digitsLSB_eq_digits b hb v, Nat.digits_len b v (by omega) hv]

/-! ### Small helpers for the claim-level statements -/

theorem take_append_of_length (l1 l2 : List Nat) (n : Nat) (h : l1.length = n) :
    (l1 ++ l2).take n = l1 := by
  rw [← h]
  exact List.take_left l1 l2

theorem append_drop_frame (X s : List Nat) (n k : Nat) (hX : X.length = n) (hk : n ≤ k) :
    (X ++ s.drop n)[k]? = s[k]? := by
  rw [List.getElem?_append, if_neg (by omega), hX, List.getElem?_drop]
  congr 1
  omega

theorem set_zero_frame (s : List Nat) (c k : Nat) (hk : 1 ≤ k) :
    (s.set 0 c)[k]? = s[k]? := by
  rw [List.getElem?_set, if_neg (by omega)]

theorem set_zero_take (s : List Nat) (h : 1 ≤ s.length) :
    (s.set 0 48).take 1 = [48] := by
  rw [set_eq_splice s 0 48 (by omega)]
  have h1 : splice s 0 [48] = [48] ++ s.drop 1 := by
    simp [splice]
  rw [h1, take_append_of_length [48] (s.drop 1) 1 rfl]

theorem parseBytes_zero_char (b : Nat) : parseBytes b [48] = 0 := by
  simp [parseBytes, parseNat, charVal]

theorem cores_agree_base10 (neg : Bool) (n : Nat) (s : List Nat) (hn : n ≠ 0) :
    numtoaSignedCore8 neg n 10 s = numtoaSignedCore neg n 10 s := by
  unfold numtoaSignedCore numtoaSignedCore8
  rw [if_pos rfl, int_loop_as_nat 10 (by omega) n 0 s,
    show ((10 : Int)).toNat = 10 from rfl, ← base10_eq_digitLoop n 0 s hn]

/-! ### Claim theorems -/

/-- Claim C1 (code bug): converting the minimum value of a signed type is NOT
safe: `(-128 : i8).numtoa(10, buf)` executes `self = self.abs()`, which
overflows; the call aborts (debug: overflow panic; release: the wrapped
negative value sends `rem as usize` out of the `LOOKUP` table's bounds).
The model therefore yields `none` instead of the digit sequence `-128`
that the claim requires. -/
theorem c1_i8_min_value_aborts :
    numtoa_i8 (-128) 10 (List.replicate 8 0) = none := rfl

/-- Claim C2 (code bug): a too-small buffer is NOT the sole failure mode:
`(-32768 : i16).numtoa(10, buf)` panics even with an amply sized buffer,
because `self.abs()` overflows at the minimum value.  The model yields
`none` on an 8-byte buffer although the representation needs only 6. -/
theorem c2_min_value_is_second_failure_mode :
    numtoa_i 16 (-32768) 10 (List.replicate 8 0) = none := by decide

/-- Claim C6: for every nonzero value, at every write index and on every
buffer, the batched four-digit-per-iteration base-10 fast path
(`base_10!`) returns exactly the same write index and buffer contents as
the naive one-digit-per-iteration division loop run with base 10. -/
theorem c6_fast_slow_equivalence (v i : Nat) (s : List Nat) (hv : v ≠ 0) :
    base10Loop v i s = digitLoop 10 v i s :=
  base10_eq_digitLoop v i s hv

theorem c6_fast_slow_equivalence_witness :
    base10Loop 162392 0 (List.replicate 8 0) = digitLoop 10 162392 0 (List.replicate 8 0) :=
  c6_fast_slow_equivalence 162392 0 (List.replicate 8 0) (by decide)

/-- Claim C7: on every supported type (unsigned, unsigned 8-bit, signed of
any width, signed 8-bit) and every base in [2,36], converting 0 with a
buffer of length at least 1 writes the single byte `'0'` (48) at position
0, leaves the rest of the buffer unchanged, and returns length 1. -/
theorem c7_zero_single_char (w bN : Nat) (bI : Int) (s : List Nat)
    (hbN2 : 2 ≤ bN) (hbN36 : bN ≤ 36) (hbI2 : 2 ≤ bI) (hbI36 : bI ≤ 36)
    (hs : 1 ≤ s.length) :
    numtoa_u 0 bN s = some (1, s.set 0 48)
    ∧ numtoa_u8 0 bN s = some (1, s.set 0 48)
    ∧ numtoa_i w 0 bI s = some (1, s.set 0 48)
    ∧ numtoa_i8 0 bI s = some (1, s.set 0 48) :=
  ⟨numtoa_u_zero bN s hs, numtoa_u8_zero bN s hs,
    numtoa_i_zero w bI s hs, numtoa_i8_zero bI s hs⟩

theorem c7_zero_single_char_witness :
    numtoa_u 0 16 [7, 7] = some (1, [7, 7].set 0 48)
    ∧ numtoa_u8 0 16 [7, 7] = some (1, [7, 7].set 0 48)
    ∧ numtoa_i 32 0 16 [7, 7] = some (1, [7, 7].set 0 48)
    ∧ numtoa_i8 0 16 [7, 7] = some (1, [7, 7].set 0 48) :=
  c7_zero_single_char 32 16 16 [7, 7] (by decide) (by decide) (by decide) (by decide) (by decide)

/-- Claim C9: the generic-base loop terminates: integer division by a base
`b ≥ 2` strictly decreases every nonzero value, the loop's digit sequence
for `v ≤ M` has at most `log_b M + 1` entries (the integer rendering of
`⌈log_b (max value)⌉` iterations), and on a sufficient buffer the loop
completes, returning exactly that many iterations' worth of writes. -/
theorem c9_generic_loop_terminates (b v M i : Nat) (s : List Nat) (hb : 2 ≤ b) (hvM : v ≤ M) :
    (v ≠ 0 → v / b < v)
    ∧ (digitsLSB b v).length ≤ Nat.log b M + 1
    ∧ (b ≤ 36 → i + (digitsLSB b v).length ≤ s.length →
        digitLoop b v i s
          = some (i + (digitsLSB b v).length, splice s i ((digitsLSB b v).map lkChar))) := by
  refine ⟨fun hv => Nat.div_lt_self (Nat.pos_of_ne_zero hv) (by omega), ?_, ?_⟩
  · by_cases hv : v = 0
    · subst hv
      rw [digitsLSB_zero]
      simp
    · rw [digitsLSB_length_log b v hb hv]
      have := Nat.log_mono_right (b := b) hvM
      omega
  · intro hb36 hs
    exact digitLoop_spec b hb hb36 v i s hs

theorem c9_generic_loop_terminates_witness :
    (6235 ≠ 0 → 6235 / 16 < 6235)
    ∧ (digitsLSB 16 6235).length ≤ Nat.log 16 65535 + 1
    ∧ (16 ≤ 36 → 0 + (digitsLSB 16 6235).length ≤ (List.replicate 8 0 : List Nat).length →
        digitLoop 16 6235 0 (List.replicate 8 0)
          = some (0 + (digitsLSB 16 6235).length,
              splice (List.replicate 8 0) 0 ((digitsLSB 16 6235).map lkChar))) :=
  c9_generic_loop_terminates 16 6235 65535 0 (List.replicate 8 0) (by decide) (by decide)

/-- Claim C10: the 8-bit conversions use the generic one-digit-per-iteration
loop even at base 10 (the `base_10!` fast path is not instantiated for
`i8`/`u8`), yet on every 8-bit value and buffer their results coincide
exactly with the fast-path-using conversions of the wider types. -/
theorem c10_8bit_matches_fast_path :
    (∀ (v : Nat) (s : List Nat), v < 256 → numtoa_u8 v 10 s = numtoa_u v 10 s)
    ∧ (∀ (v : Int) (s : List Nat), -128 ≤ v → v < 128 →
        numtoa_i8 v 10 s = numtoa_i 8 v 10 s) := by
  constructor
  · intro v s _
    unfold numtoa_u8 numtoa_u
    by_cases hv : v = 0
    · rw [if_pos hv, if_pos hv]
    · rw [if_neg hv, if_neg hv, if_pos rfl, ← base10_eq_digitLoop v 0 s hv]
  · intro v s h1 h2
    unfold numtoa_i8 numtoa_i
    rw [show -(2 ^ (8 - 1) : Int) = -128 from by norm_num]
    by_cases hneg : v < 0
    · rw [if_pos hneg, if_pos hneg]
      by_cases hmin : v = -128
      · rw [if_pos hmin, if_pos hmin]
      · rw [if_neg hmin, if_neg hmin,
          cores_agree_base10 true v.natAbs s (Int.natAbs_ne_zero.mpr (by omega))]
    · rw [if_neg hneg, if_neg hneg]
      by_cases hz : v = 0
      · rw [if_pos hz, if_pos hz]
      · rw [if_neg hz, if_neg hz,
          cores_agree_base10 false v.natAbs s (Int.natAbs_ne_zero.mpr hz)]

theorem c10_8bit_matches_fast_path_witness :
    numtoa_u8 255 10 (List.replicate 4 0) = numtoa_u 255 10 (List.replicate 4 0)
    ∧ numtoa_i8 (-127) 10 (List.replicate 4 0) = numtoa_i 8 (-127) 10 (List.replicate 4 0) :=
  ⟨c10_8bit_matches_fast_path.1 255 (List.replicate 4 0) (by decide),
    c10_8bit_matches_fast_path.2 (-127) (List.replicate 4 0) (by decide) (by decide)⟩

/-- Claim C3 counterexample: at `i32::MIN` the round-trip fails outright —
the conversion call aborts (the `abs` overflow of C1), so no output
parses back to the input value. -/
theorem c3_roundtrip_cex :
    ¬ ∃ (n : Nat) (out : List Nat),
      numtoa_i 32 (-2147483648) 10 (List.replicate 16 0) = some (n, out)
      ∧ parseBytes 10 (out.take n) = -2147483648 := by
  have h : numtoa_i 32 (-2147483648) 10 (List.replicate 16 0) = none := by decide
  rintro ⟨n, out, hsome, _⟩
  rw [h] at hsome
  exact Option.noConfusion hsome

/-- Claim C3 (amended: excluding the minimum value of the signed types,
where the call aborts — see C1): for every value of every supported type
and every base in [2,36], with a buffer at least as long as the
representation, the conversion succeeds and interpreting the returned
bytes `buffer[0..count]` as a base-`b` numeral (optional leading `'-'`,
digits `'0'`-`'9'` then `'A'`-`'Z'`) yields exactly the input value. -/
theorem c3_roundtrip :
    (∀ (v b : Nat) (s : List Nat), 2 ≤ b → b ≤ 36 → uCount b v ≤ s.length →
      ∃ (n : Nat) (out : List Nat), numtoa_u v b s = some (n, out)
        ∧ parseNat b (out.take n) = v)
    ∧ (∀ (v b : Nat) (s : List Nat), 2 ≤ b → b ≤ 36 → uCount b v ≤ s.length →
      ∃ (n : Nat) (out : List Nat), numtoa_u8 v b s = some (n, out)
        ∧ parseNat b (out.take n) = v)
    ∧ (∀ (w : Nat) (v b : Int) (s : List Nat), 2 ≤ b → b ≤ 36 →
      v ≠ -(2 ^ (w - 1) : Int) → iCount b.toNat v ≤ s.length →
      ∃ (n : Nat) (out : List Nat), numtoa_i w v b s = some (n, out)
        ∧ parseBytes b.toNat (out.take n) = v)
    ∧ (∀ (v b : Int) (s : List Nat), 2 ≤ b → b ≤ 36 →
      v ≠ -128 → iCount b.toNat v ≤ s.length →
      ∃ (n : Nat) (out : List Nat), numtoa_i8 v b s = some (n, out)
        ∧ parseBytes b.toNat (out.take n) = v) := by
  refine ⟨?_, ?_, ?_, ?_⟩
  · intro v b s hb2 hb36 hs
    by_cases hv : v = 0
    · subst hv
      have hs1 : 1 ≤ s.length := by simpa [uCount] using hs
      refine ⟨1, s.set 0 48, numtoa_u_zero b s hs1, ?_⟩
      rw [set_zero_take s hs1]
      simp [parseNat, charVal]
    · have hsl : (digitsLSB b v).length ≤ s.length := by simpa [uCount, hv] using hs
      refine ⟨_, _, numtoa_u_spec v b s hv hb2 hb36 hsl, ?_⟩
      rw [take_append_of_length _ _ _ (by simp)]
      exact parseNat_numtoa b v hb2 hb36
  · intro v b s hb2 hb36 hs
    by_cases hv : v = 0
    · subst hv
      have hs1 : 1 ≤ s.length := by simpa [uCount] using hs
      refine ⟨1, s.set 0 48, numtoa_u8_zero b s hs1, ?_⟩
      rw [set_zero_take s hs1]
      simp [parseNat, charVal]
    · have hsl : (digitsLSB b v).length ≤ s.length := by simpa [uCount, hv] using hs
      refine ⟨_, _, numtoa_u8_spec v b s hv hb2 hb36 hsl, ?_⟩
      rw [take_append_of_length _ _ _ (by simp)]
      exact parseNat_numtoa b v hb2 hb36
  · intro w v b s hb2 hb36 hmin hs
    by_cases hv : v = 0
    · subst hv
      have hs1 : 1 ≤ s.length := by simpa [iCount] using hs
      refine ⟨1, s.set 0 48, numtoa_i_zero w b s hs1, ?_⟩
      rw [set_zero_take s hs1, parseBytes_zero_char]
    · have hbt2 : 2 ≤ b.toNat := by omega
      have hbt36 : b.toNat ≤ 36 := by omega
      have hsl : (digitsLSB b.toNat v.natAbs).length + (if v < 0 then 1 else 0) ≤ s.length := by
        unfold iCount at hs
        rw [if_neg hv] at hs
        omega
      refine ⟨_, _, numtoa_i_spec w v b s hv hmin hb2 hb36 hsl, ?_⟩
      by_cases hneg : v < 0
      · simp only [if_pos hneg]
        rw [take_append_of_length _ _ _ (by simp),
          parseBytes_neg b.toNat v.natAbs hbt2 hbt36]
        omega
      · simp only [if_neg hneg]
        rw [take_append_of_length _ _ _ (by simp),
          parseBytes_pos b.toNat v.natAbs hbt2 hbt36]
        omega
  · intro v b s hb2 hb36 hmin hs
    by_cases hv : v = 0
    · subst hv
      have hs1 : 1 ≤ s.length := by simpa [iCount] using hs
      refine ⟨1, s.set 0 48, numtoa_i8_zero b s hs1, ?_⟩
      rw [set_zero_take s hs1, parseBytes_zero_char]
    · have hbt2 : 2 ≤ b.toNat := by omega
      have hbt36 : b.toNat ≤ 36 := by omega
      have hsl : (digitsLSB b.toNat v.natAbs).length + (if v < 0 then 1 else 0) ≤ s.length := by
        unfold iCount at hs
        rw [if_neg hv] at hs
        omega
      refine ⟨_, _, numtoa_i8_spec v b s hv hmin hb2 hb36 hsl, ?_⟩
      by_cases hneg : v < 0
      · simp only [if_pos hneg]
        rw [take_append_of_length _ _ _ (by simp),
          parseBytes_neg b.toNat v.natAbs hbt2 hbt36]
        omega
      · simp only [if_neg hneg]
        rw [take_append_of_length _ _ _ (by simp),
          parseBytes_pos b.toNat v.natAbs hbt2 hbt36]
        omega

theorem c3_roundtrip_witness :
    ∃ (n : Nat) (out : List Nat),
      numtoa_i 32 (-6235) 10 (List.replicate 8 0) = some (n, out)
      ∧ parseBytes 10 (out.take n) = -6235 := by
  have h := c3_roundtrip.2.2.1 32 (-6235) 10 (List.replicate 8 0)
    (by decide) (by decide) (by decide) (by decide)
  simpa using h

/-- Claim C4 counterexample: at `i64::MIN` the sign-placement claim fails —
the conversion aborts (the `abs` overflow of C1), so there is no output
whose first byte could be `'-'`. -/
theorem c4_sign_cex :
    ¬ ∃ (n : Nat) (out : List Nat),
      numtoa_i 64 (-9223372036854775808) 10 (List.replicate 24 0) = some (n, out)
      ∧ (out.take n).head? = some 45 := by
  have h : numtoa_i 64 (-9223372036854775808) 10 (List.replicate 24 0) = none := by decide
  rintro ⟨n, out, hsome, _⟩
  rw [h] at hsome
  exact Option.noConfusion hsome

/-- Claim C4 (amended: excluding the minimum value of the signed types,
where the call aborts — see C1): for every negative value of a signed
type and every base in [2,36], with a sufficient buffer, the first output
byte is `'-'` (45) and the remaining bytes equal the output of converting
the absolute value, so the count is one greater than that conversion's
count. -/
theorem c4_sign_placement :
    (∀ (w : Nat) (v b : Int) (s : List Nat), v < 0 → v ≠ -(2 ^ (w - 1) : Int) →
      2 ≤ b → b ≤ 36 → (digitsLSB b.toNat v.natAbs).length + 1 ≤ s.length →
      ∃ (n : Nat) (out : List Nat) (m : Nat) (out2 : List Nat),
        numtoa_i w v b s = some (n, out) ∧ numtoa_i w (-v) b s = some (m, out2)
        ∧ n = m + 1 ∧ out.take n = 45 :: out2.take m)
    ∧ (∀ (v b : Int) (s : List Nat), v < 0 → v ≠ -128 →
      2 ≤ b → b ≤ 36 → (digitsLSB b.toNat v.natAbs).length + 1 ≤ s.length →
      ∃ (n : Nat) (out : List Nat) (m : Nat) (out2 : List Nat),
        numtoa_i8 v b s = some (n, out) ∧ numtoa_i8 (-v) b s = some (m, out2)
        ∧ n = m + 1 ∧ out.take n = 45 :: out2.take m) := by
  constructor
  · intro w v b s hneg hmin hb2 hb36 hs
    have hvne : v ≠ 0 := by omega
    have hnv_pos : ¬ (-v) < 0 := by omega
    have hnv_ne : (-v) ≠ 0 := by omega
    have hnv_min : (-v) ≠ -(2 ^ (w - 1) : Int) := by
      have hp : (0 : Int) < 2 ^ (w - 1) := by positivity
      omega
    have hnatabs : (-v).natAbs = v.natAbs := Int.natAbs_neg v
    have h1 := numtoa_i_spec w v b s hvne hmin hb2 hb36
      (by simp only [if_pos hneg]; omega)
    have h2 := numtoa_i_spec w (-v) b s hnv_ne hnv_min hb2 hb36
      (by simp only [if_neg hnv_pos, hnatabs]; omega)
    simp only [if_pos hneg] at h1
    simp only [if_neg hnv_pos, hnatabs, Nat.add_zero] at h2
    refine ⟨_, _, _, _, h1, h2, rfl, ?_⟩
    rw [take_append_of_length _ _ _ (by simp), take_append_of_length _ _ _ (by simp)]
  · intro v b s hneg hmin hb2 hb36 hs
    have hvne : v ≠ 0 := by omega
    have hnv_pos : ¬ (-v) < 0 := by omega
    have hnv_ne : (-v) ≠ 0 := by omega
    have hnv_min : (-v) ≠ (-128 : Int) := by omega
    have hnatabs : (-v).natAbs = v.natAbs := Int.natAbs_neg v
    have h1 := numtoa_i8_spec v b s hvne hmin hb2 hb36
      (by simp only [if_pos hneg]; omega)
    have h2 := numtoa_i8_spec (-v) b s hnv_ne hnv_min hb2 hb36
      (by simp only [if_neg hnv_pos, hnatabs]; omega)
    simp only [if_pos hneg] at h1
    simp only [if_neg hnv_pos, hnatabs, Nat.add_zero] at h2
    refine ⟨_, _, _, _, h1, h2, rfl, ?_⟩
    rw [take_append_of_length _ _ _ (by simp), take_append_of_length _ _ _ (by simp)]

theorem c4_sign_placement_witness :
    ∃ (n : Nat) (out : List Nat) (m : Nat) (out2 : List Nat),
      numtoa_i 32 (-6235) 10 (List.replicate 8 0) = some (n, out)
      ∧ numtoa_i 32 6235 10 (List.replicate 8 0) = some (m, out2)
      ∧ n = m + 1 ∧ out.take n = 45 :: out2.take m := by
  have h := c4_sign_placement.1 32 (-6235) 10 (List.replicate 8 0)
    (by decide) (by decide) (by decide) (by decide) (by decide)
  simpa using h

/-- Claim C5 counterexample: at the pointer-width minimum (isize on a
64-bit target) the length claim fails — the conversion aborts (the `abs`
overflow of C1), so no count is returned at all. -/
theorem c5_length_cex :
    ¬ ∃ (n : Nat) (out : List Nat),
      numtoa_i 64 (-9223372036854775808) 2 (List.replicate 70 0) = some (n, out)
      ∧ n = canonLen 2 (-9223372036854775808) := by
  have h : numtoa_i 64 (-9223372036854775808) 2 (List.replicate 70 0) = none := by decide
  rintro ⟨n, out, hsome, _⟩
  rw [h] at hsome
  exact Option.noConfusion hsome

/-- Claim C5 (amended: excluding the minimum value of the signed types,
where the call aborts — see C1): for every value and every base in
[2,36], with a sufficient buffer, the returned count equals the exact
character count of the canonical representation — no leading zeros
(`Nat.digits`), plus one for the `'-'` sign when the value is negative. -/
theorem c5_length_correct :
    (∀ (v b : Nat) (s : List Nat), 2 ≤ b → b ≤ 36 → uCount b v ≤ s.length →
      ∃ out : List Nat, numtoa_u v b s = some (canonLen b (v : Int), out))
    ∧ (∀ (v b : Nat) (s : List Nat), 2 ≤ b → b ≤ 36 → uCount b v ≤ s.length →
      ∃ out : List Nat, numtoa_u8 v b s = some (canonLen b (v : Int), out))
    ∧ (∀ (w : Nat) (v b : Int) (s : List Nat), 2 ≤ b → b ≤ 36 →
      v ≠ -(2 ^ (w - 1) : Int) → iCount b.toNat v ≤ s.length →
      ∃ out : List Nat, numtoa_i w v b s = some (canonLen b.toNat v, out))
    ∧ (∀ (v b : Int) (s : List Nat), 2 ≤ b → b ≤ 36 →
      v ≠ -128 → iCount b.toNat v ≤ s.length →
      ∃ out : List Nat, numtoa_i8 v b s = some (canonLen b.toNat v, out)) := by
  refine ⟨?_, ?_, ?_, ?_⟩
  · intro v b s hb2 hb36 hs
    by_cases hv : v = 0
    · subst hv
      have hs1 : 1 ≤ s.length := by simpa [uCount] using hs
      refine ⟨s.set 0 48, ?_⟩
      rw [show canonLen b ((0 : Nat) : Int) = 1 from by simp [canonLen]]
      exact numtoa_u_zero b s hs1
    · have hsl : (digitsLSB b v).length ≤ s.length := by simpa [uCount, hv] using hs
      have hc : canonLen b (v : Int) = (digitsLSB b v).length := by
        unfold canonLen
        rw [if_neg (by omega), if_neg (by exact_mod_cast hv), Int.natAbs_ofNat,
          digitsLSB_eq_digits b hb2 v]
        omega
      refine ⟨((digitsLSB b v).map lkChar).reverse ++ s.drop (digitsLSB b v).length, ?_⟩
      rw [hc]
      exact numtoa_u_spec v b s hv hb2 hb36 hsl
  · intro v b s hb2 hb36 hs
    by_cases hv : v = 0
    · subst hv
      have hs1 : 1 ≤ s.length := by simpa [uCount] using hs
      refine ⟨s.set 0 48, ?_⟩
      rw [show canonLen b ((0 : Nat) : Int) = 1 from by simp [canonLen]]
      exact numtoa_u8_zero b s hs1
    · have hsl : (digitsLSB b v).length ≤ s.length := by simpa [uCount, hv] using hs
      have hc : canonLen b (v : Int) = (digitsLSB b v).length := by
        unfold canonLen
        rw [if_neg (by omega), if_neg (by exact_mod_cast hv), Int.natAbs_ofNat,
          digitsLSB_eq_digits b hb2 v]
        omega
      refine ⟨((digitsLSB b v).map lkChar).reverse ++ s.drop (digitsLSB b v).length, ?_⟩
      rw [hc]
      exact numtoa_u8_spec v b s hv hb2 hb36 hsl
  · intro w v b s hb2 hb36 hmin hs
    by_cases hv : v = 0
    · subst hv
      have hs1 : 1 ≤ s.length := by simpa [iCount] using hs
      refine ⟨s.set 0 48, ?_⟩
      rw [show canonLen b.toNat (0 : Int) = 1 from by simp [canonLen]]
      exact numtoa_i_zero w b s hs1
    · have hbt2 : 2 ≤ b.toNat := by omega
      have hsl : (digitsLSB b.toNat v.natAbs).length + (if v < 0 then 1 else 0)
          ≤ s.length := by
        unfold iCount at hs
        rw [if_neg hv] at hs
        omega
      have hc : canonLen b.toNat v
          = (digitsLSB b.toNat v.natAbs).length + (if v < 0 then 1 else 0) := by
        unfold canonLen
        rw [if_neg hv, digitsLSB_eq_digits b.toNat hbt2 v.natAbs]
        by_cases hneg : v < 0
        · simp only [if_pos hneg]
          omega
        · simp only [if_neg hneg]
          omega
      refine ⟨(if v < 0 then 45 :: ((digitsLSB b.toNat v.natAbs).map lkChar).reverse
          else ((digitsLSB b.toNat v.natAbs).map lkChar).reverse)
          ++ s.drop ((digitsLSB b.toNat v.natAbs).length + (if v < 0 then 1 else 0)), ?_⟩
      rw [hc]
      exact numtoa_i_spec w v b s hv hmin hb2 hb36 hsl
  · intro v b s hb2 hb36 hmin hs
    by_cases hv : v = 0
    · subst hv
      have hs1 : 1 ≤ s.length := by simpa [iCount] using hs
      refine ⟨s.set 0 48, ?_⟩
      rw [show canonLen b.toNat (0 : Int) = 1 from by simp [canonLen]]
      exact numtoa_i8_zero b s hs1
    · have hbt2 : 2 ≤ b.toNat := by omega
      have hsl : (digitsLSB b.toNat v.natAbs).length + (if v < 0 then 1 else 0)
          ≤ s.length := by
        unfold iCount at hs
        rw [if_neg hv] at hs
        omega
      have hc : canonLen b.toNat v
          = (digitsLSB b.toNat v.natAbs).length + (if v < 0 then 1 else 0) := by
        unfold canonLen
        rw [if_neg hv, digitsLSB_eq_digits b.toNat hbt2 v.natAbs]
        by_cases hneg : v < 0
        · simp only [if_pos hneg]
          omega
        · simp only [if_neg hneg]
          omega
      refine ⟨(if v < 0 then 45 :: ((digitsLSB b.toNat v.natAbs).map lkChar).reverse
          else ((digitsLSB b.toNat v.natAbs).map lkChar).reverse)
          ++ s.drop ((digitsLSB b.toNat v.natAbs).length + (if v < 0 then 1 else 0)), ?_⟩
      rw [hc]
      exact numtoa_i8_spec v b s hv hmin hb2 hb36 hsl

theorem c5_length_correct_witness :
    ∃ out : List Nat,
      numtoa_u 18446744073709551615 10 (List.replicate 20 0)
        = some (canonLen 10 ((18446744073709551615 : Nat) : Int), out) :=
  c5_length_correct.1 18446744073709551615 10 (List.replicate 20 0)
    (by decide) (by decide) (by decide)

/-- Claim C8: frame property — for every conversion call that returns a
count (valid base in [2,36], sufficient buffer; for the signed types this
excludes the minimum value, where no count is returned — see C1), every
buffer byte at a position at or beyond the returned count keeps exactly
the value it held before the call; only the leading positions are
mutated. -/
theorem c8_frame :
    (∀ (v b : Nat) (s : List Nat), 2 ≤ b → b ≤ 36 → uCount b v ≤ s.length →
      ∃ (n : Nat) (out : List Nat), numtoa_u v b s = some (n, out)
        ∧ ∀ k, n ≤ k → out[k]? = s[k]?)
    ∧ (∀ (v b : Nat) (s : List Nat), 2 ≤ b → b ≤ 36 → uCount b v ≤ s.length →
      ∃ (n : Nat) (out : List Nat), numtoa_u8 v b s = some (n, out)
        ∧ ∀ k, n ≤ k → out[k]? = s[k]?)
    ∧ (∀ (w : Nat) (v b : Int) (s : List Nat), 2 ≤ b → b ≤ 36 →
      v ≠ -(2 ^ (w - 1) : Int) → iCount b.toNat v ≤ s.length →
      ∃ (n : Nat) (out : List Nat), numtoa_i w v b s = some (n, out)
        ∧ ∀ k, n ≤ k → out[k]? = s[k]?)
    ∧ (∀ (v b : Int) (s : List Nat), 2 ≤ b → b ≤ 36 →
      v ≠ -128 → iCount b.toNat v ≤ s.length →
      ∃ (n : Nat) (out : List Nat), numtoa_i8 v b s = some (n, out)
        ∧ ∀ k, n ≤ k → out[k]? = s[k]?) := by
  refine ⟨?_, ?_, ?_, ?_⟩
  · intro v b s hb2 hb36 hs
    by_cases hv : v = 0
    · subst hv
      have hs1 : 1 ≤ s.length := by simpa [uCount] using hs
      exact ⟨1, s.set 0 48, numtoa_u_zero b s hs1,
        fun k hk => set_zero_frame s 48 k hk⟩
    · have hsl : (digitsLSB b v).length ≤ s.length := by simpa [uCount, hv] using hs
      exact ⟨_, _, numtoa_u_spec v b s hv hb2 hb36 hsl,
        fun k hk => append_drop_frame _ s _ k (by simp) hk⟩
  · intro v b s hb2 hb36 hs
    by_cases hv : v = 0
    · subst hv
      have hs1 : 1 ≤ s.length := by simpa [uCount] using hs
      exact ⟨1, s.set 0 48, numtoa_u8_zero b s hs1,
        fun k hk => set_zero_frame s 48 k hk⟩
    · have hsl : (digitsLSB b v).length ≤ s.length := by simpa [uCount, hv] using hs
      exact ⟨_, _, numtoa_u8_spec v b s hv hb2 hb36 hsl,
        fun k hk => append_drop_frame _ s _ k (by simp) hk⟩
  · intro w v b s hb2 hb36 hmin hs
    by_cases hv : v = 0
    · subst hv
      have hs1 : 1 ≤ s.length := by simpa [iCount] using hs
      exact ⟨1, s.set 0 48, numtoa_i_zero w b s hs1,
        fun k hk => set_zero_frame s 48 k hk⟩
    · have hsl : (digitsLSB b.toNat v.natAbs).length + (if v < 0 then 1 else 0)
          ≤ s.length := by
        unfold iCount at hs
        rw [if_neg hv] at hs
        omega
      refine ⟨_, _, numtoa_i_spec w v b s hv hmin hb2 hb36 hsl, fun k hk => ?_⟩
      by_cases hneg : v < 0
      · simp only [if_pos hneg] at hk ⊢
        exact append_drop_frame _ s _ k (by simp) hk
      · simp only [if_neg hneg] at hk ⊢
        exact append_drop_frame _ s _ k (by simp) hk
  · intro v b s hb2 hb36 hmin hs
    by_cases hv : v = 0
    · subst hv
      have hs1 : 1 ≤ s.length := by simpa [iCount] using hs
      exact ⟨1, s.set 0 48, numtoa_i8_zero b s hs1,
        fun k hk => set_zero_frame s 48 k hk⟩
    · have hsl : (digitsLSB b.toNat v.natAbs).length + (if v < 0 then 1 else 0)
          ≤ s.length := by
        unfold iCount at hs
        rw [if_neg hv] at hs
        omega
      refine ⟨_, _, numtoa_i8_spec v b s hv hmin hb2 hb36 hsl, fun k hk => ?_⟩
      by_cases hneg : v < 0
      · simp only [if_pos hneg] at hk ⊢
        exact append_drop_frame _ s _ k (by simp) hk
      · simp only [if_neg hneg] at hk ⊢
        exact append_drop_frame _ s _ k (by simp) hk

theorem c8_frame_witness :
    ∃ (n : Nat) (out : List Nat),
      numtoa_u 255 16 [9, 9, 9, 9] = some (n, out) ∧ ∀ k, n ≤ k → out[k]? = [9, 9, 9, 9][k]? :=
  c8_frame.1 255 16 [9, 9, 9, 9] (by decide) (by decide) (by decide)
